import Mathlib

set_option maxRecDepth 8192

/-!
Shallow embedding of the `rust-bech32-altcoin` crate (files `src/lib.rs` and
`src/constants.rs`).

Modelling conventions:
* Rust strings are ASCII byte sequences here, modelled as `List Nat`;
  `Vec<u8>` is likewise `List Nat` (with `< 256` side conditions where the
  Rust type guarantees them).
* `u5` values are `Nat` with `< 32` side conditions where needed;
  `u5::try_from_u8` is `try_from_u8 : Nat → Option Nat`.
* Fallible Rust functions returning `Result` are embedded as `Except`.
* The `.expect(..)` call in `from_scriptpubkey` (a potential panic) is made
  explicit by letting that function return `Option (Except Error _)`,
  where `none` is the panic outcome.
* The external `bech32` crate (the spec's "Checksum Codec" collaborator,
  spec section 6) is not part of this repository's sources; it is modelled
  from the BIP-0173 algorithm that both the crate and the spec reference:
  checksummed encode/decode over the 32-character bech32 alphabet and the
  8-bit/5-bit regrouping with padding rules.
-/

namespace Altcoin

/-- The `Network` enum from `src/constants.rs`.  The `hrp` and `classify`
functions in that file both refer to a `MonacoinRegtest` variant (human
readable part "rmona"), while the enum declaration itself omits it — the
inconsistency recorded in the spec (section 9).  The variant is included
here so that `hrp` and `classify` can be translated exactly as written. -/
inductive Network
  | bitcoin
  | testnet
  | signet
  | regtest
  | bellcoin
  | bellcoinTestnet
  | bitZeny
  | bitZenyTestnet
  | cranePay
  | cranePayTestnet
  | cryptoComChain
  | cryptoComChainTestnet
  | digiByte
  | digiByteTestnet
  | fujiCoin
  | fujiCoinTestnet
  | groestlcoin
  | groestlcoinTestnet
  | handshake
  | handshakeTestnet
  | litecoin
  | litecoinTestnet
  | monacoin
  | monacoinTestnet
  | monacoinRegtest
  | myriad
  | myriadTestnet
  | namecoin
  | namecoinTestnet
  | peercoin
  | peercoinTestnet
  | pkt
  | pktTestnet
  | quantumResistantLedger
  | quantumResistantLedgerTestnet
  | ravencoin
  | ravencoinTestnet
  | susucoin
  | susucoinTestnet
  | unite
  | uniteTestnet
  | vertcoin
  | vertcoinTestnet
  | viacoin
  | viacoinTestnet
  | vipstarcoin
  | vipstarcoinTestnet
  | zenProtocol
  | zenProtocolTestnet
  | zilliqa
  | zilliqaTestnet
deriving DecidableEq, Fintype

open Network

/-- The function `constants::hrp`: the human-readable part of each network, as ASCII
byte values (for example `[98, 99]` is "bc" and `[116, 98]` is "tb"). -/
def hrp (network : Network) : List Nat :=
  match network with
  | bitcoin => [98, 99]                              -- "bc"
  | testnet => [116, 98]                             -- "tb"
  | signet => [115, 98]                              -- "sb"
  | bellcoin => [98, 109]                            -- "bm"
  | bellcoinTestnet => [98, 116]                     -- "bt"
  | bitZeny => [98, 122]                             -- "bz"
  | bitZenyTestnet => [116, 122]                     -- "tz"
  | cranePay => [99, 112]                            -- "cp"
  | cranePayTestnet => [99, 112, 116]                -- "cpt"
  | cryptoComChain => [99, 114, 111]                 -- "cro"
  | cryptoComChainTestnet => [116, 99, 114, 111]     -- "tcro"
  | digiByte => [100, 103, 98]                       -- "dgb"
  | digiByteTestnet => [100, 103, 98, 116]           -- "dgbt"
  | fujiCoin => [102, 99]                            -- "fc"
  | fujiCoinTestnet => [116, 102]                    -- "tf"
  | groestlcoin => [103, 114, 115]                   -- "grs"
  | groestlcoinTestnet => [116, 103, 114, 115]       -- "tgrs"
  | handshake => [104, 115]                          -- "hs"
  | handshakeTestnet => [116, 115]                   -- "ts"
  | litecoin => [108, 116, 99]                       -- "ltc"
  | litecoinTestnet => [116, 108, 116, 99]           -- "tltc"
  | monacoin => [109, 111, 110, 97]                  -- "mona"
  | monacoinTestnet => [116, 109, 111, 110, 97]      -- "tmona"
  | monacoinRegtest => [114, 109, 111, 110, 97]      -- "rmona"
  | myriad => [109, 121]                             -- "my"
  | myriadTestnet => [116, 109]                      -- "tm"
  | namecoin => [110, 99]                            -- "nc"
  | namecoinTestnet => [116, 110]                    -- "tn"
  | peercoin => [120, 112, 99]                       -- "xpc"
  | peercoinTestnet => [116, 112, 99]                -- "tpc"
  | pkt => [112, 107, 116]                           -- "pkt"
  | pktTestnet => [116, 112, 107]                    -- "tpk"
  | quantumResistantLedger => [113, 114, 108]        -- "qrl"
  | quantumResistantLedgerTestnet => [116, 113, 114, 108] -- "tqrl"
  | ravencoin => [114, 99]                           -- "rc"
  | ravencoinTestnet => [116, 114]                   -- "tr"
  | susucoin => [115, 117, 115, 117]                 -- "susu"
  | susucoinTestnet => [116, 117, 116, 117]          -- "tutu"
  | unite => [117, 101]                              -- "ue"
  | uniteTestnet => [116, 117, 101]                  -- "tue"
  | vertcoin => [118, 116, 99]                       -- "vtc"
  | vertcoinTestnet => [116, 118, 116, 99]           -- "tvtc"
  | viacoin => [118, 105, 97]                        -- "via"
  | viacoinTestnet => [116, 118, 105, 97]            -- "tvia"
  | vipstarcoin => [118, 105, 112, 115]              -- "vips"
  | vipstarcoinTestnet => [116, 118, 105, 112, 115]  -- "tvips"
  | zenProtocol => [122, 101, 110]                   -- "zen"
  | zenProtocolTestnet => [116, 122, 110]            -- "tzn"
  | zilliqa => [122, 105, 108]                       -- "zil"
  | zilliqaTestnet => [116, 122, 105, 108]           -- "tzil"
  | regtest => [98, 99, 114, 116]                    -- "bcrt"

/-- The function `constants::classify`: recover the network from a human-readable part;
unrecognized inputs yield `none` (the `_ => None` arm of the Rust match). -/
def classify (s : List Nat) : Option Network :=
  if s = [98, 99] then some bitcoin
  else if s = [116, 98] then some testnet
  else if s = [115, 98] then some signet
  else if s = [98, 109] then some bellcoin
  else if s = [98, 116] then some bellcoinTestnet
  else if s = [98, 122] then some bitZeny
  else if s = [116, 122] then some bitZenyTestnet
  else if s = [99, 112] then some cranePay
  else if s = [99, 112, 116] then some cranePayTestnet
  else if s = [99, 114, 111] then some cryptoComChain
  else if s = [116, 99, 114, 111] then some cryptoComChainTestnet
  else if s = [100, 103, 98] then some digiByte
  else if s = [100, 103, 98, 116] then some digiByteTestnet
  else if s = [102, 99] then some fujiCoin
  else if s = [116, 102] then some fujiCoinTestnet
  else if s = [103, 114, 115] then some groestlcoin
  else if s = [116, 103, 114, 115] then some groestlcoinTestnet
  else if s = [104, 115] then some handshake
  else if s = [116, 115] then some handshakeTestnet
  else if s = [108, 116, 99] then some litecoin
  else if s = [116, 108, 116, 99] then some litecoinTestnet
  else if s = [109, 111, 110, 97] then some monacoin
  else if s = [116, 109, 111, 110, 97] then some monacoinTestnet
  else if s = [114, 109, 111, 110, 97] then some monacoinRegtest
  else if s = [109, 121] then some myriad
  else if s = [116, 109] then some myriadTestnet
  else if s = [110, 99] then some namecoin
  else if s = [116, 110] then some namecoinTestnet
  else if s = [120, 112, 99] then some peercoin
  else if s = [116, 112, 99] then some peercoinTestnet
  else if s = [112, 107, 116] then some pkt
  else if s = [116, 112, 107] then some pktTestnet
  else if s = [113, 114, 108] then some quantumResistantLedger
  else if s = [116, 113, 114, 108] then some quantumResistantLedgerTestnet
  else if s = [114, 99] then some ravencoin
  else if s = [116, 114] then some ravencoinTestnet
  else if s = [115, 117, 115, 117] then some susucoin
  else if s = [116, 117, 116, 117] then some susucoinTestnet
  else if s = [117, 101] then some unite
  else if s = [116, 117, 101] then some uniteTestnet
  else if s = [118, 116, 99] then some vertcoin
  else if s = [116, 118, 116, 99] then some vertcoinTestnet
  else if s = [118, 105, 97] then some viacoin
  else if s = [116, 118, 105, 97] then some viacoinTestnet
  else if s = [118, 105, 112, 115] then some vipstarcoin
  else if s = [116, 118, 105, 112, 115] then some vipstarcoinTestnet
  else if s = [122, 101, 110] then some zenProtocol
  else if s = [116, 122, 110] then some zenProtocolTestnet
  else if s = [122, 105, 108] then some zilliqa
  else if s = [116, 122, 105, 108] then some zilliqaTestnet
  else if s = [98, 99, 114, 116] then some regtest
  else none

/-!
### The external bech32 codec

Modelled from the spec: the repository delegates checksummed encoding and
decoding to the external `bech32` crate (the spec's "Checksum Codec"
collaborator, section 6), whose sources are not part of this repository.
The definitions below follow the BIP-0173 algorithm the crate implements:
the 32-character data alphabet, the BCH checksum (`polymod`), human-readable
part expansion, and the 8-bit/5-bit regrouping with its padding rules.
-/

/-- A bit sequence rendered as a number, most significant bit first. -/
def bitsToNat : List Bool → Nat
  | [] => 0
  | b :: bs => (if b then 1 else 0) * 2 ^ bs.length + bitsToNat bs

/-- The low `w` bits of `n`, most significant first. -/
def natToBits : Nat → Nat → List Bool
  | 0, _ => []
  | w + 1, n => n.testBit w :: natToBits w n

/-- Regroup a bit sequence into 5-bit symbols, zero-padding the final
partial group (the `pad = true` direction of BIP-0173 `convertbits`). -/
def toGroups5 : List Bool → List Nat
  | b0 :: b1 :: b2 :: b3 :: b4 :: rest =>
      bitsToNat [b0, b1, b2, b3, b4] :: toGroups5 rest
  | [] => []
  | bs => [bitsToNat (bs ++ List.replicate (5 - bs.length) false)]

/-- Regroup a bit sequence into bytes, discarding a final partial group
(the emission loop of BIP-0173 `convertbits`). -/
def toBytes8 : List Bool → List Nat
  | b0 :: b1 :: b2 :: b3 :: b4 :: b5 :: b6 :: b7 :: rest =>
      bitsToNat [b0, b1, b2, b3, b4, b5, b6, b7] :: toBytes8 rest
  | _ => []

/-- The `ToBase32` impl of the bech32 crate: bytes to 5-bit symbols, padded. -/
def to_base32 (bytes : List Nat) : List Nat :=
  toGroups5 ((bytes.map (natToBits 8)).flatten)

deriving instance DecidableEq for Except

/-- Bech32 error values surfaced by the codec. -/
inductive B32Error
  | missingSeparator
  | invalidChecksum
  | invalidLength
  | invalidChar
  | mixedCase
  | invalidPadding
deriving DecidableEq

/-- The `FromBase32` impl of the bech32 crate: 5-bit symbols back to bytes
(`pad = false`); fails with `invalidPadding` when more than four padding
bits remain or any padding bit is non-zero. -/
def from_base32 (p5 : List Nat) : Except B32Error (List Nat) :=
  let bits := (p5.map (natToBits 5)).flatten
  let r := bits.length % 8
  if 5 ≤ r then .error .invalidPadding
  else if (bits.drop (bits.length - r)).any (fun b => b) then .error .invalidPadding
  else .ok (toBytes8 (bits.take (bits.length - r)))

/-- One step of the BIP-0173 BCH checksum state machine. -/
def polymodStep (chk v : Nat) : Nat :=
  let b := chk >>> 25
  (((chk &&& 0x1ffffff) <<< 5) ^^^ v) ^^^
    ((if b &&& 1 ≠ 0 then 0x3b6a57b2 else 0) ^^^
     (if b &&& 2 ≠ 0 then 0x26508e6d else 0) ^^^
     (if b &&& 4 ≠ 0 then 0x1ea119fa else 0) ^^^
     (if b &&& 8 ≠ 0 then 0x3d4233dd else 0) ^^^
     (if b &&& 16 ≠ 0 then 0x2a1462b3 else 0))

/-- The BIP-0173 `bech32_polymod` checksum of a symbol sequence. -/
def polymod (values : List Nat) : Nat :=
  values.foldl polymodStep 1

/-- The function `bech32_hrp_expand`: high bits of each byte, a zero, low bits of each. -/
def hrpExpand (h : List Nat) : List Nat :=
  h.map (fun c => c >>> 5) ++ [0] ++ h.map (fun c => c &&& 31)

/-- The six checksum symbols appended by the encoder. -/
def createChecksum (h data : List Nat) : List Nat :=
  let pm := polymod (hrpExpand h ++ data ++ [0, 0, 0, 0, 0, 0]) ^^^ 1
  [(pm >>> 25) &&& 31, (pm >>> 20) &&& 31, (pm >>> 15) &&& 31,
   (pm >>> 10) &&& 31, (pm >>> 5) &&& 31, pm &&& 31]

/-- Checksum verification performed by the decoder. -/
def verifyChecksum (h data : List Nat) : Bool :=
  polymod (hrpExpand h ++ data) == 1

/-- The bech32 data alphabet "qpzry9x8gf2tvdw0s3jn54khce6mua7l" as ASCII
byte values, indexed by symbol value. -/
def CHARSET : List Nat :=
  [113, 112, 122, 114, 121, 57, 120, 56, 103, 102, 50, 116, 118, 100, 119, 48,
   115, 51, 106, 110, 53, 52, 107, 104, 99, 101, 54, 109, 117, 97, 55, 108]

/-- The alphabet character for a 5-bit symbol value. -/
def charsetChar (v : Nat) : Nat :=
  CHARSET.getD v 0

/-- Helper for `charRev`: position of byte `c` in `l`, offset by `i`. -/
def charRevAux : List Nat → Nat → Nat → Option Nat
  | [], _, _ => none
  | x :: rest, c, i => if x = c then some i else charRevAux rest c (i + 1)

/-- The symbol value of an alphabet byte, `none` outside the alphabet. -/
def charRev (c : Nat) : Option Nat :=
  charRevAux CHARSET c 0

/-- Map every data character to its symbol value, failing on the first
byte outside the alphabet. -/
def mapCharRev : List Nat → Option (List Nat)
  | [] => some []
  | c :: rest =>
    match charRev c, mapCharRev rest with
    | some v, some vs => some (v :: vs)
    | _, _ => none

/-- ASCII uppercase test. -/
def isUpperB (c : Nat) : Bool :=
  decide (65 ≤ c ∧ c ≤ 90)

/-- ASCII lowercase test. -/
def isLowerB (c : Nat) : Bool :=
  decide (97 ≤ c ∧ c ≤ 122)

/-- ASCII lowercasing of a byte. -/
def toLowerB (c : Nat) : Nat :=
  if 65 ≤ c ∧ c ≤ 90 then c + 32 else c

/-- Bytes permitted in a human-readable part (printable ASCII). -/
def hrpValidByte (c : Nat) : Bool :=
  decide (33 ≤ c ∧ c ≤ 126)

/-- Index of the last separator byte 49 (the character "1"), as found by
the decoder's reverse search. -/
def rfind1 : List Nat → Option Nat
  | [] => none
  | c :: rest =>
    match rfind1 rest with
    | some j => some (j + 1)
    | none => if c = 49 then some 0 else none

/-- The function `bech32::encode`: attach the separator and checksum and spell the data
symbols in the bech32 alphabet. -/
def encode (h data : List Nat) : Except B32Error (List Nat) :=
  if h.length < 1 ∨ 83 < h.length then .error .invalidLength
  else if ¬ h.all hrpValidByte then .error .invalidChar
  else .ok (h ++ 49 :: (data ++ createChecksum h data).map charsetChar)

/-- The function `bech32::decode`: reject mixed case and out-of-range lengths, split at
the last separator, translate the data characters, verify the checksum, and
return the lowercased human-readable part with the payload symbols. -/
def decode (s : List Nat) : Except B32Error (List Nat × List Nat) :=
  if s.any isUpperB ∧ s.any isLowerB then .error .mixedCase
  else if s.length < 8 ∨ 90 < s.length then .error .invalidLength
  else
    let sl := s.map toLowerB
    match rfind1 sl with
    | none => .error .missingSeparator
    | some pos =>
      let h := sl.take pos
      let dp := sl.drop (pos + 1)
      if h.length < 1 then .error .invalidLength
      else if dp.length < 6 then .error .invalidLength
      else if ¬ h.all hrpValidByte then .error .invalidChar
      else
        match mapCharRev dp with
        | none => .error .invalidChar
        | some values =>
          if verifyChecksum h values then
            .ok (h, values.take (values.length - 6))
          else .error .invalidChecksum

/-!
### The witness program model (`src/lib.rs`)
-/

/-- The `Error` enum of `src/lib.rs`. -/
inductive Error
  | bech32 (e : B32Error)
  | invalidHumanReadablePart
  | scriptPubkeyTooShort
  | scriptPubkeyInvalidLength
  | invalidLength
  | invalidVersionLength
  | invalidScriptVersion
deriving DecidableEq

/-- The function `u5::try_from_u8` of the bech32 crate. -/
def try_from_u8 (n : Nat) : Option Nat :=
  if n < 32 then some n else none

/-- The `WitnessProgram` struct: version, program bytes, network, and the
cached bech32 text (`bech32` field).  Derived equality compares all four
fields, as Rust's derived `PartialEq` does. -/
structure WitnessProgram where
  version : Nat
  program : List Nat
  network : Network
  bech32 : List Nat
deriving DecidableEq

namespace WitnessProgram

/-- The method `WitnessProgram::validate`. -/
def validate (p : WitnessProgram) : Except Error Unit :=
  if p.version > 16 then .error .invalidScriptVersion
  else if p.program.length < 2 ∨ p.program.length > 40 then .error .invalidLength
  else if p.version = 0 ∧ p.program.length ≠ 20 ∧ p.program.length ≠ 32 then
    .error .invalidVersionLength
  else .ok ()

/-- The constructor `WitnessProgram::new`. -/
def new (version : Nat) (program : List Nat) (network : Network) :
    Except Error WitnessProgram :=
  match encode (hrp network) (version :: to_base32 program) with
  | .error e => .error (.bech32 e)
  | .ok bech =>
    let ret : WitnessProgram := ⟨version, program, network, bech⟩
    match ret.validate with
    | .error e => .error e
    | .ok _ => .ok ret

/-- The `ToString` impl: `to_string` returns the cached text. -/
def to_string (p : WitnessProgram) : List Nat :=
  p.bech32

/-- The method `WitnessProgram::to_address`. -/
def to_address (p : WitnessProgram) : List Nat :=
  p.to_string

/-- The `FromStr` impl: `from_str`. -/
def from_str (s : List Nat) : Except Error WitnessProgram :=
  match decode s with
  | .error e => .error (.bech32 e)
  | .ok (h, data) =>
    match classify h with
    | none => .error .invalidHumanReadablePart
    | some network =>
      if data.isEmpty ∨ 65 < data.length then .error (.bech32 .invalidLength)
      else
        match data with
        | [] => .error (.bech32 .invalidLength)
        | v :: p5 =>
          match from_base32 p5 with
          | .error e => .error (.bech32 e)
          | .ok program =>
            let wp : WitnessProgram := ⟨v, program, network, s⟩
            match wp.validate with
            | .error e => .error e
            | .ok _ => .ok wp

/-- The method `WitnessProgram::from_address`. -/
def from_address (s : List Nat) : Except Error WitnessProgram :=
  from_str s

/-- The method `WitnessProgram::to_scriptpubkey`; the `as u8` cast of the length is
the `% 256` truncation. -/
def to_scriptpubkey (p : WitnessProgram) : List Nat :=
  (if p.version > 0 then p.version + 0x50 else p.version)
    :: p.program.length % 256 :: p.program

/-- The method `WitnessProgram::from_scriptpubkey`.  The result is wrapped in
`Option`: `none` is the panic of the `.expect(..)` call on
`u5::try_from_u8`, `some` the ordinary `Result`. -/
def from_scriptpubkey (pubkey : List Nat) (network : Network) :
    Option (Except Error WitnessProgram) :=
  if pubkey.length < 4 then some (.error .scriptPubkeyTooShort)
  else
    let proglen := pubkey.getD 1 0
    if pubkey.length ≠ 2 + proglen then some (.error .scriptPubkeyInvalidLength)
    else
      let v0 := pubkey.getD 0 0
      let v1 := if v0 > 0x50 then v0 - 0x50 else v0
      match try_from_u8 v1 with
      | none => none
      | some v => some (new v (pubkey.drop 2) network)

end WitnessProgram

/-- The op byte exactly as claim C4 words it ("op_byte is p.version unless
p.version == 0, in which case op_byte is p.version offset by the fixed
constant 0x50"); stated for comparison against `to_scriptpubkey`. -/
def c4ClaimOpByte (version : Nat) : Nat :=
  if version = 0 then version + 0x50 else version

/-- The number whose base-32 digits (most significant first) are the given
5-bit symbols, written as an xor of shifted digits; auxiliary for the
checksum arguments below. -/
def packSyms : List Nat → Nat
  | [] => 0
  | v :: rest => (v <<< (5 * rest.length)) ^^^ packSyms rest

/-- The BIP-0173 test address "BC1SW50QA3JX3S" (also in the crate's own
test suite) as ASCII byte values. -/
def addrUp : List Nat :=
  [66, 67, 49, 83, 87, 53, 48, 81, 65, 51, 74, 88, 51, 83]

/-- The lowercase rendering "bc1sw50qa3jx3s" of the same address. -/
def addrLow : List Nat :=
  [98, 99, 49, 115, 119, 53, 48, 113, 97, 51, 106, 120, 51, 115]

/-- The witness program decoded from `addrUp`: version 16, program bytes
`0x75 0x1e`, Bitcoin mainnet, with the uppercase text cached verbatim. -/
def wpUp : WitnessProgram :=
  ⟨16, [117, 30], Network.bitcoin, addrUp⟩

/-- The witness program decoded from `addrLow`: the same fields with the
lowercase text cached. -/
def wpLow : WitnessProgram :=
  ⟨16, [117, 30], Network.bitcoin, addrLow⟩

/-- A valid version-0 witness program used as a concrete evaluation
point (its cached text is deliberately not the canonical encoding). -/
def wpV0 : WitnessProgram :=
  ⟨0, List.replicate 20 7, Network.bitcoin, []⟩

/-!
### Bit regrouping lemmas
-/

theorem natToBits_length (w n : Nat) : (natToBits w n).length = w := by
  induction w generalizing n with
  | zero => rfl
  | succ w ih => simp [natToBits, ih]

theorem bitsToNat_lt (bs : List Bool) : bitsToNat bs < 2 ^ bs.length := by
  induction bs with
  | nil => simp [bitsToNat]
  | cons b bs ih =>
    simp only [bitsToNat, List.length_cons, pow_succ]
    rcases b with _ | _ <;> simp <;> omega

theorem bitsToNat_natToBits (w n : Nat) :
    bitsToNat (natToBits w n) = n % 2 ^ w := by
  induction w generalizing n with
  | zero => simp [natToBits, bitsToNat, Nat.mod_one]
  | succ w ih =>
    simp only [natToBits, bitsToNat, natToBits_length, ih]
    rw [Nat.mod_pow_succ]
    rcases h : n.testBit w with _ | _ <;>
      simp only [Nat.testBit_to_div_mod, decide_eq_true_eq, decide_eq_false_iff_not] at h
    · have h2 : n / 2 ^ w % 2 = 0 := by omega
      simp [h2]
    · simp [h]
      omega

theorem bitsToNat_natToBits_of_lt {w n : Nat} (h : n < 2 ^ w) :
    bitsToNat (natToBits w n) = n := by
  rw [bitsToNat_natToBits, Nat.mod_eq_of_lt h]

theorem natToBits_mod (w n : Nat) :
    natToBits w (n % 2 ^ w) = natToBits w n := by
  induction w generalizing n with
  | zero => rfl
  | succ w ih =>
    have hdvd : (2 : Nat) ^ w ∣ 2 ^ (w + 1) := pow_dvd_pow 2 (Nat.le_succ w)
    simp only [natToBits]
    congr 1
    · rw [Nat.testBit_mod_two_pow]
      simp
    · conv_rhs => rw [← ih n]
      rw [← ih (n % 2 ^ (w + 1)), Nat.mod_mod_of_dvd n hdvd]

theorem natToBits_bitsToNat (bs : List Bool) :
    natToBits bs.length (bitsToNat bs) = bs := by
  induction bs with
  | nil => rfl
  | cons b rest ih =>
    have hlt := bitsToNat_lt rest
    simp only [List.length_cons, natToBits, bitsToNat]
    congr 1
    · rw [Nat.testBit_to_div_mod]
      have hdiv : ((if b then 1 else 0) * 2 ^ rest.length + bitsToNat rest) /
          2 ^ rest.length = (if b then 1 else 0) := by
        rw [Nat.mul_comm, Nat.mul_add_div (Nat.two_pow_pos _),
          Nat.div_eq_of_lt hlt, Nat.add_zero]
      rw [hdiv]
      rcases b with _ | _ <;> simp
    · rw [← natToBits_mod, Nat.add_comm, Nat.add_mul_mod_self_right,
        Nat.mod_eq_of_lt hlt, ih]

theorem toGroups5_lt (bs : List Bool) : ∀ v ∈ toGroups5 bs, v < 32 := by
  induction bs using toGroups5.induct with
  | case1 b0 b1 b2 b3 b4 rest ih =>
    intro v hv
    simp only [toGroups5, List.mem_cons] at hv
    rcases hv with rfl | hv
    · simpa using bitsToNat_lt [b0, b1, b2, b3, b4]
    · exact ih v hv
  | case2 => simp [toGroups5]
  | case3 bs h5 h0 =>
    intro v hv
    rcases bs with _ | ⟨a, _ | ⟨b, _ | ⟨c, _ | ⟨d, _ | ⟨e, rest⟩⟩⟩⟩⟩
    · exact absurd rfl h0
    all_goals first
    | (exact absurd rfl (h5 _ _ _ _ _ _))
    | (simp only [toGroups5, List.mem_singleton] at hv
       subst hv
       refine lt_of_lt_of_le (bitsToNat_lt _) ?_
       simp)

theorem toGroups5_length (bs : List Bool) :
    (toGroups5 bs).length = (bs.length + 4) / 5 := by
  induction bs using toGroups5.induct with
  | case1 b0 b1 b2 b3 b4 rest ih =>
    simp only [toGroups5, List.length_cons, ih]
    omega
  | case2 => simp [toGroups5]
  | case3 bs h5 h0 =>
    rcases bs with _ | ⟨a, _ | ⟨b, _ | ⟨c, _ | ⟨d, _ | ⟨e, rest⟩⟩⟩⟩⟩
    · exact absurd rfl h0
    all_goals first
    | (exact absurd rfl (h5 _ _ _ _ _ _))
    | simp [toGroups5]

theorem flat5_toGroups5 (bs : List Bool) :
    ((toGroups5 bs).map (natToBits 5)).flatten
      = bs ++ List.replicate ((5 - bs.length % 5) % 5) false := by
  induction bs using toGroups5.induct with
  | case1 b0 b1 b2 b3 b4 rest ih =>
    have h5 : natToBits 5 (bitsToNat [b0, b1, b2, b3, b4]) = [b0, b1, b2, b3, b4] :=
      natToBits_bitsToNat [b0, b1, b2, b3, b4]
    simp only [toGroups5, List.map_cons, List.flatten_cons, ih, h5]
    have hm : (rest.length + 5) % 5 = rest.length % 5 := by omega
    simp [hm]
  | case2 => simp [toGroups5]
  | case3 bs h5 h0 =>
    rcases bs with _ | ⟨a, _ | ⟨b, _ | ⟨c, _ | ⟨d, _ | ⟨e, rest⟩⟩⟩⟩⟩
    · exact absurd rfl h0
    · simpa [toGroups5, List.replicate] using
        natToBits_bitsToNat [a, false, false, false, false]
    · simpa [toGroups5, List.replicate] using
        natToBits_bitsToNat [a, b, false, false, false]
    · simpa [toGroups5, List.replicate] using
        natToBits_bitsToNat [a, b, c, false, false]
    · simpa [toGroups5, List.replicate] using
        natToBits_bitsToNat [a, b, c, d, false]
    · exact absurd rfl (h5 _ _ _ _ _ _)

theorem toBytes8_cons8 (b : Nat) (rest : List Bool) :
    toBytes8 (natToBits 8 b ++ rest) = b % 256 :: toBytes8 rest := by
  have h : natToBits 8 b ++ rest
      = b.testBit 7 :: b.testBit 6 :: b.testBit 5 :: b.testBit 4 ::
        b.testBit 3 :: b.testBit 2 :: b.testBit 1 :: b.testBit 0 :: rest := by
    simp [natToBits]
  rw [h]
  simp only [toBytes8]
  congr 1
  have hb := bitsToNat_natToBits 8 b
  simpa [natToBits] using hb

theorem flatten_map8_length (bytes : List Nat) :
    ((bytes.map (natToBits 8)).flatten).length = 8 * bytes.length := by
  induction bytes with
  | nil => simp
  | cons b rest ih =>
    simp [natToBits_length, ih]
    omega

theorem toBytes8_flatten8 (bytes : List Nat) (h : ∀ b ∈ bytes, b < 256) :
    toBytes8 ((bytes.map (natToBits 8)).flatten) = bytes := by
  induction bytes with
  | nil => rfl
  | cons b rest ih =>
    simp only [List.map_cons, List.flatten_cons, toBytes8_cons8]
    rw [Nat.mod_eq_of_lt (h b (List.mem_cons_self b rest)),
      ih (fun x hx => h x (List.mem_cons_of_mem b hx))]

/-- Lemma: `FromBase32` undoes `ToBase32` on byte sequences (the 5-bit/8-bit
regrouping round trip of the codec). -/
theorem from_to_base32 (bytes : List Nat) (h : ∀ b ∈ bytes, b < 256) :
    from_base32 (to_base32 bytes) = .ok bytes := by
  have len8 : ((bytes.map (natToBits 8)).flatten).length = 8 * bytes.length :=
    flatten_map8_length bytes
  have hflat := flat5_toGroups5 ((bytes.map (natToBits 8)).flatten)
  rw [len8] at hflat
  set padLen := (5 - 8 * bytes.length % 5) % 5 with hpadLen
  have hpadlt : padLen < 5 := Nat.mod_lt _ (by norm_num)
  simp only [from_base32, to_base32, hflat]
  have hlen : ((bytes.map (natToBits 8)).flatten
      ++ List.replicate padLen false).length = 8 * bytes.length + padLen := by
    simp [len8]
  rw [hlen]
  have hr : (8 * bytes.length + padLen) % 8 = padLen := by omega
  rw [hr]
  have h5r : ¬ 5 ≤ padLen := by omega
  simp only [if_neg h5r]
  have hsub : 8 * bytes.length + padLen - padLen = 8 * bytes.length := by omega
  rw [hsub, ← len8, List.drop_left, List.take_left]
  have hany : (List.replicate padLen false).any (fun b => b) = false := by
    simp
  rw [hany]
  simp only [Bool.false_eq_true, if_false]
  rw [toBytes8_flatten8 bytes h]

/-!
### Checksum lemmas
-/

theorem shiftRight_xor (a b k : Nat) :
    (a ^^^ b) >>> k = (a >>> k) ^^^ (b >>> k) := by
  apply Nat.eq_of_testBit_eq
  intro i
  simp [Nat.testBit_shiftRight, Nat.testBit_xor]

theorem shiftLeft_xor (a b k : Nat) :
    (a ^^^ b) <<< k = (a <<< k) ^^^ (b <<< k) := by
  apply Nat.eq_of_testBit_eq
  intro i
  simp only [Nat.testBit_shiftLeft, Nat.testBit_xor]
  by_cases hk : k ≤ i <;> simp [hk]

theorem shiftRight_eq_zero {a k : Nat} (h : a < 2 ^ k) : a >>> k = 0 := by
  rw [Nat.shiftRight_eq_div_pow]
  exact Nat.div_eq_of_lt h

theorem polymodStep_zero_xor (chk v : Nat) :
    polymodStep chk v = polymodStep chk 0 ^^^ v := by
  simp only [polymodStep]
  apply Nat.eq_of_testBit_eq
  intro i
  simp [Nat.testBit_xor, Bool.xor_assoc, Bool.xor_comm, Bool.xor_left_comm]

theorem polymodStep_xor_left {x : Nat} (chk v : Nat) (hx : x < 2 ^ 25) :
    polymodStep (chk ^^^ x) v = polymodStep chk v ^^^ (x <<< 5) := by
  have hb : (chk ^^^ x) >>> 25 = chk >>> 25 := by
    rw [shiftRight_xor, shiftRight_eq_zero hx, Nat.xor_zero]
  have hm : (chk ^^^ x) &&& 0x1ffffff = (chk &&& 0x1ffffff) ^^^ x := by
    rw [Nat.and_xor_distrib_right]
    congr 1
    have h31 : (0x1ffffff : Nat) = 2 ^ 25 - 1 := by norm_num
    rw [h31, Nat.and_pow_two_sub_one_eq_mod, Nat.mod_eq_of_lt hx]
  simp only [polymodStep, hb, hm, shiftLeft_xor]
  apply Nat.eq_of_testBit_eq
  intro i
  simp [Nat.testBit_xor, Bool.xor_assoc, Bool.xor_comm, Bool.xor_left_comm]

theorem foldl_polymodStep_xor (vs : List Nat) (chk x : Nat)
    (hx : x * 2 ^ (5 * vs.length) < 2 ^ 30) :
    vs.foldl polymodStep (chk ^^^ x)
      = vs.foldl polymodStep chk ^^^ (x <<< (5 * vs.length)) := by
  induction vs generalizing chk x with
  | nil => simp
  | cons v rest ih =>
    have hpow : (2 : Nat) ^ 5 ≤ 2 ^ (5 * (rest.length + 1)) :=
      Nat.pow_le_pow_right (by norm_num) (by omega)
    have hx5 : x * 2 ^ 5 ≤ x * 2 ^ (5 * (rest.length + 1)) :=
      Nat.mul_le_mul_left x hpow
    have hx25 : x < 2 ^ 25 := by
      simp only [List.length_cons] at hx
      have := lt_of_le_of_lt hx5 hx
      norm_num at this ⊢
      omega
    simp only [List.foldl_cons, List.length_cons]
    rw [polymodStep_xor_left chk v hx25]
    have hx2 : (x <<< 5) * 2 ^ (5 * rest.length) < 2 ^ 30 := by
      rw [Nat.shiftLeft_eq, Nat.mul_assoc, ← pow_add]
      have he : 5 + 5 * rest.length = 5 * (rest.length + 1) := by omega
      rw [he]
      simpa using hx
    rw [ih (polymodStep chk v) (x <<< 5) hx2]
    rw [Nat.shiftLeft_eq, Nat.shiftLeft_eq, Nat.shiftLeft_eq, Nat.mul_assoc,
      ← pow_add]
    have he : 5 + 5 * rest.length = 5 * (rest.length + 1) := by omega
    rw [he]

theorem foldl_polymodStep_pack (vs : List Nat) (c : Nat) (hlen : vs.length ≤ 6)
    (hv : ∀ v ∈ vs, v < 32) :
    vs.foldl polymodStep c
      = (List.replicate vs.length 0).foldl polymodStep c ^^^ packSyms vs := by
  induction vs generalizing c with
  | nil => simp [packSyms]
  | cons v rest ih =>
    have hvlt : v < 32 := hv v (List.mem_cons_self v rest)
    have hpow : (2 : Nat) ^ (5 * rest.length) ≤ 2 ^ 25 :=
      Nat.pow_le_pow_right (by norm_num)
        (by simp only [List.length_cons] at hlen; omega)
    have hb : v * 2 ^ (5 * rest.length) < 2 ^ 30 := by
      have h1 : v * 2 ^ (5 * rest.length) ≤ 31 * 2 ^ 25 :=
        Nat.mul_le_mul (by omega) hpow
      norm_num at h1 ⊢
      omega
    simp only [List.foldl_cons, List.length_cons, List.replicate_succ, packSyms]
    rw [polymodStep_zero_xor c v, foldl_polymodStep_xor rest _ v hb,
      ih (polymodStep c 0)
        (by simp only [List.length_cons] at hlen; omega)
        (fun x hx => hv x (List.mem_cons_of_mem v hx))]
    apply Nat.eq_of_testBit_eq
    intro i
    simp [Nat.testBit_xor, Bool.xor_assoc, Bool.xor_comm, Bool.xor_left_comm]

theorem polymodStep_lt (chk v : Nat) (hv : v < 32) :
    polymodStep chk v < 2 ^ 30 := by
  have hA : chk &&& 0x1ffffff < 2 ^ 25 := by
    have h25 : (0x1ffffff : Nat) = 2 ^ 25 - 1 := by norm_num
    rw [h25, Nat.and_pow_two_sub_one_eq_mod]
    exact Nat.mod_lt _ (Nat.two_pow_pos 25)
  have hA2 : (chk &&& 0x1ffffff) <<< 5 < 2 ^ 30 := by
    rw [Nat.shiftLeft_eq]
    calc (chk &&& 0x1ffffff) * 2 ^ 5 < 2 ^ 25 * 2 ^ 5 :=
          (Nat.mul_lt_mul_right (by norm_num)).mpr hA
      _ = 2 ^ 30 := by norm_num
  unfold polymodStep
  apply Nat.xor_lt_two_pow
    (Nat.xor_lt_two_pow hA2 (lt_of_lt_of_le hv (by norm_num)))
  repeat'
    first
    | apply Nat.xor_lt_two_pow
    | (split <;> norm_num)

theorem foldl_polymodStep_lt (vs : List Nat) (c : Nat) (hc : c < 2 ^ 30)
    (hv : ∀ v ∈ vs, v < 32) : vs.foldl polymodStep c < 2 ^ 30 := by
  induction vs generalizing c with
  | nil => exact hc
  | cons v rest ih =>
    simp only [List.foldl_cons]
    exact ih (polymodStep c v)
      (polymodStep_lt c v (hv v (List.mem_cons_self v rest)))
      (fun x hx => hv x (List.mem_cons_of_mem v hx))

theorem testBit_31 (j : Nat) : (31 : Nat).testBit j = decide (j < 5) := by
  have h31 : (31 : Nat) = 2 ^ 5 - 1 := by norm_num
  rw [h31, Nat.testBit_two_pow_sub_one]

theorem packSyms_unpack (t : Nat) (ht : t < 2 ^ 30) :
    packSyms [(t >>> 25) &&& 31, (t >>> 20) &&& 31, (t >>> 15) &&& 31,
      (t >>> 10) &&& 31, (t >>> 5) &&& 31, t &&& 31] = t := by
  simp only [packSyms, List.length_cons, List.length_nil]
  norm_num
  apply Nat.eq_of_testBit_eq
  intro i
  by_cases hi : i < 30
  · interval_cases i <;>
      simp only [Nat.testBit_xor, Nat.testBit_shiftLeft, Nat.testBit_and,
        Nat.testBit_shiftRight, testBit_31] <;>
      norm_num
  · have hfalse : t.testBit i = false :=
      Nat.testBit_lt_two_pow
        (lt_of_lt_of_le ht (Nat.pow_le_pow_right (by norm_num) (by omega)))
    have e1 : ¬ (i - 25 < 5) := by omega
    have e2 : ¬ (i - 20 < 5) := by omega
    have e3 : ¬ (i - 15 < 5) := by omega
    have e4 : ¬ (i - 10 < 5) := by omega
    have e5 : ¬ (i - 5 < 5) := by omega
    have e6 : ¬ (i < 5) := by omega
    simp [Nat.testBit_xor, Nat.testBit_shiftLeft, Nat.testBit_and,
      Nat.testBit_shiftRight, testBit_31,
      e1, e2, e3, e4, e5, e6, hfalse]

theorem hrpExpand_lt (h : List Nat) (hh : ∀ c ∈ h, c < 1024) :
    ∀ v ∈ hrpExpand h, v < 32 := by
  intro v hv
  simp only [hrpExpand, List.mem_append, List.mem_map,
    List.mem_singleton] at hv
  rcases hv with (⟨c, hc, rfl⟩ | rfl) | ⟨c, hc, rfl⟩
  · rw [Nat.shiftRight_eq_div_pow]
    have := hh c hc
    omega
  · norm_num
  · have : c &&& 31 ≤ 31 := Nat.and_le_right
    omega

theorem createChecksum_lt (h data : List Nat) :
    ∀ v ∈ createChecksum h data, v < 32 := by
  intro v hv
  simp only [createChecksum, List.mem_cons, List.not_mem_nil, or_false] at hv
  rcases hv with rfl | rfl | rfl | rfl | rfl | rfl <;>
    exact lt_of_le_of_lt Nat.and_le_right (by norm_num)

theorem createChecksum_length (h data : List Nat) :
    (createChecksum h data).length = 6 := by
  simp [createChecksum]

/-- The checksum appended by the encoder verifies: the defining algebraic
property of the BIP-0173 checksum construction. -/
theorem polymod_with_checksum (h data : List Nat)
    (hh : ∀ c ∈ h, c < 1024) (hd : ∀ v ∈ data, v < 32) :
    polymod (hrpExpand h ++ (data ++ createChecksum h data)) = 1 := by
  have hpre : ∀ v ∈ hrpExpand h ++ data ++ [0, 0, 0, 0, 0, 0], v < 32 := by
    intro v hv
    simp only [List.mem_append, List.mem_cons, List.not_mem_nil,
      or_false] at hv
    rcases hv with (hv | hv) | hv
    · exact hrpExpand_lt h hh v hv
    · exact hd v hv
    · rcases hv with rfl | rfl | rfl | rfl | rfl | rfl <;> norm_num
  have hplt : polymod (hrpExpand h ++ data ++ [0, 0, 0, 0, 0, 0]) < 2 ^ 30 :=
    foldl_polymodStep_lt _ 1 (by norm_num) hpre
  have ht30 : polymod (hrpExpand h ++ data ++ [0, 0, 0, 0, 0, 0]) ^^^ 1
      < 2 ^ 30 := Nat.xor_lt_two_pow hplt (by norm_num)
  have hcs : packSyms (createChecksum h data)
      = polymod (hrpExpand h ++ data ++ [0, 0, 0, 0, 0, 0]) ^^^ 1 := by
    simp only [createChecksum]
    exact packSyms_unpack _ ht30
  rw [polymod, ← List.append_assoc, List.foldl_append,
    foldl_polymodStep_pack _ _ (by rw [createChecksum_length])
      (createChecksum_lt h data),
    createChecksum_length, hcs]
  have hz : (List.replicate 6 (0 : Nat)).foldl polymodStep
      ((hrpExpand h ++ data).foldl polymodStep 1)
      = polymod (hrpExpand h ++ data ++ [0, 0, 0, 0, 0, 0]) := by
    simp [polymod, List.foldl_append, List.replicate]
  rw [hz, ← Nat.xor_assoc, Nat.xor_self, Nat.zero_xor]

/-!
### Alphabet and human-readable-part facts
-/

theorem charRev_charsetChar : ∀ v, v < 32 → charRev (charsetChar v) = some v := by
  decide

theorem charsetChar_lt_of_lt : ∀ v, v < 32 → charsetChar v < 128 := by
  decide

theorem charsetChar_not_upper (v : Nat) : isUpperB (charsetChar v) = false := by
  by_cases hv : v < 32
  · revert hv
    revert v
    decide
  · unfold charsetChar
    rw [List.getD_eq_default]
    · rfl
    · simp only [CHARSET, List.length_cons, List.length_nil]
      omega

theorem charsetChar_ne_49 (v : Nat) : charsetChar v ≠ 49 := by
  by_cases hv : v < 32
  · revert hv
    revert v
    decide
  · unfold charsetChar
    rw [List.getD_eq_default]
    · omega
    · simp only [CHARSET, List.length_cons, List.length_nil]
      omega

theorem toLowerB_charsetChar (v : Nat) : toLowerB (charsetChar v) = charsetChar v := by
  by_cases hv : v < 32
  · revert hv
    revert v
    decide
  · unfold charsetChar
    rw [List.getD_eq_default]
    · rfl
    · simp only [CHARSET, List.length_cons, List.length_nil]
      omega

theorem hrp_lower : ∀ n : Network, ∀ c ∈ hrp n, 97 ≤ c ∧ c ≤ 122 := by
  decide

theorem hrp_length : ∀ n : Network, 2 ≤ (hrp n).length ∧ (hrp n).length ≤ 5 := by
  decide

theorem hrp_all_valid : ∀ n : Network, (hrp n).all hrpValidByte = true := by
  decide

theorem hrp_not_upper : ∀ n : Network, (hrp n).any isUpperB = false := by
  decide

theorem hrp_map_toLowerB : ∀ n : Network, (hrp n).map toLowerB = hrp n := by
  decide

theorem hrp_no_sep : ∀ n : Network, ¬ (49 ∈ hrp n) := by
  decide

theorem hrp_lt_1024 (n : Network) : ∀ c ∈ hrp n, c < 1024 := by
  intro c hc
  have := (hrp_lower n c hc).2
  omega

theorem classify_hrp : ∀ n : Network, classify (hrp n) = some n := by
  decide

theorem mapCharRev_map_charsetChar (l : List Nat) (hl : ∀ v ∈ l, v < 32) :
    mapCharRev (l.map charsetChar) = some l := by
  induction l with
  | nil => rfl
  | cons v rest ih =>
    simp only [List.map_cons, mapCharRev]
    rw [charRev_charsetChar v (hl v (List.mem_cons_self v rest)),
      ih (fun x hx => hl x (List.mem_cons_of_mem v hx))]

theorem rfind1_eq_none (l : List Nat) (h : ¬ (49 ∈ l)) : rfind1 l = none := by
  induction l with
  | nil => rfl
  | cons c rest ih =>
    simp only [List.mem_cons, not_or] at h
    simp only [rfind1, ih h.2]
    rw [if_neg (by omega)]

theorem rfind1_append_sep (h rest : List Nat) (hrest : ¬ (49 ∈ rest)) :
    rfind1 (h ++ 49 :: rest) = some h.length := by
  induction h with
  | nil =>
    simp only [List.nil_append, rfind1, rfind1_eq_none rest hrest]
    simp
  | cons c t ih =>
    simp only [List.cons_append, rfind1]
    rw [show t.append (49 :: rest) = t ++ 49 :: rest from rfl, ih]
    simp

/-!
### Encoder output decodes back
-/

theorem encode_hrp_ok (n : Network) (data : List Nat) :
    encode (hrp n) data
      = .ok (hrp n ++ 49 :: (data ++ createChecksum (hrp n) data).map charsetChar) := by
  have hl := hrp_length n
  have h1 : ¬ ((hrp n).length < 1 ∨ 83 < (hrp n).length) := by omega
  simp [encode, h1, hrp_all_valid n]
  refine ⟨fun hnil => ?_, by omega⟩
  rw [hnil] at hl
  simp at hl

theorem charsetChar_map_not_upper (l : List Nat) :
    (l.map charsetChar).any isUpperB = false := by
  rw [List.any_map, List.any_eq_false]
  intro v _
  simp [Function.comp, charsetChar_not_upper v]

theorem charsetChar_map_toLowerB (l : List Nat) :
    (l.map charsetChar).map toLowerB = l.map charsetChar := by
  rw [List.map_map]
  exact List.map_congr_left (fun v _ => toLowerB_charsetChar v)

theorem sep_not_mem_charsetChar_map (l : List Nat) :
    ¬ (49 ∈ l.map charsetChar) := by
  rw [List.mem_map]
  rintro ⟨v, _, hv⟩
  exact charsetChar_ne_49 v hv

/-- Decoding the encoder's output returns the human-readable part and the
payload symbols unchanged: the codec round trip. -/
theorem decode_encode_output (n : Network) (data : List Nat)
    (hd : ∀ v ∈ data, v < 32) (hlen : data.length ≤ 65) :
    decode (hrp n ++ 49 :: (data ++ createChecksum (hrp n) data).map charsetChar)
      = .ok (hrp n, data) := by
  have hl := hrp_length n
  set rest := (data ++ createChecksum (hrp n) data).map charsetChar with hrest
  have hrestlen : rest.length = data.length + 6 := by
    simp [hrest, createChecksum_length]
  have hslen : (hrp n ++ 49 :: rest).length = (hrp n).length + 1 + rest.length := by
    simp
    omega
  have hnoupper : (hrp n ++ 49 :: rest).any isUpperB = false := by
    simp only [List.any_append, List.any_cons, hrp_not_upper n,
      charsetChar_map_not_upper, hrest]
    rfl
  have hmixed : ¬ ((hrp n ++ 49 :: rest).any isUpperB = true
      ∧ (hrp n ++ 49 :: rest).any isLowerB = true) := by
    rw [hnoupper]
    simp
  have hwin : ¬ ((hrp n ++ 49 :: rest).length < 8
      ∨ 90 < (hrp n ++ 49 :: rest).length) := by
    rw [hslen, hrestlen]
    omega
  have hlowerfix : (hrp n ++ 49 :: rest).map toLowerB = hrp n ++ 49 :: rest := by
    simp only [List.map_append, List.map_cons, hrp_map_toLowerB n, hrest,
      charsetChar_map_toLowerB]
    rfl
  have hfind : rfind1 (hrp n ++ 49 :: rest) = some (hrp n).length :=
    rfind1_append_sep (hrp n) rest (by rw [hrest]; exact sep_not_mem_charsetChar_map _)
  have htake : (hrp n ++ 49 :: rest).take (hrp n).length = hrp n :=
    List.take_left _ _
  have hdrop : (hrp n ++ 49 :: rest).drop ((hrp n).length + 1) = rest := by
    rw [List.append_cons]
    have he : (hrp n).length + 1 = (hrp n ++ [49]).length := by simp
    rw [he, List.drop_left]
  have hrev : mapCharRev rest = some (data ++ createChecksum (hrp n) data) := by
    rw [hrest]
    apply mapCharRev_map_charsetChar
    intro v hv
    rcases List.mem_append.mp hv with hv | hv
    · exact hd v hv
    · exact createChecksum_lt _ _ v hv
  have hverify : verifyChecksum (hrp n) (data ++ createChecksum (hrp n) data)
      = true := by
    simp only [verifyChecksum, beq_iff_eq]
    exact polymod_with_checksum (hrp n) data (hrp_lt_1024 n) hd
  have hvtake : (data ++ createChecksum (hrp n) data).take
      ((data ++ createChecksum (hrp n) data).length - 6) = data := by
    have he : (data ++ createChecksum (hrp n) data).length - 6 = data.length := by
      simp [createChecksum_length]
    rw [he]
    exact List.take_left _ _
  simp only [decode, if_neg hmixed, if_neg hwin, hlowerfix, hfind]
  rw [htake, hdrop]
  rw [if_neg (by omega), if_neg (by rw [hrestlen]; omega)]
  rw [if_neg (by rw [← Bool.not_eq_true] at *; simp [hrp_all_valid n])]
  rw [hrev]
  simp only [hverify, if_true]
  rw [hvtake]

/-!
### Constructor dissection lemmas
-/

theorem validate_ok_iff (p : WitnessProgram) :
    p.validate = .ok () ↔
      p.version ≤ 16 ∧ 2 ≤ p.program.length ∧ p.program.length ≤ 40 ∧
        (p.version = 0 → p.program.length = 20 ∨ p.program.length = 32) := by
  unfold WitnessProgram.validate
  split_ifs with h1 h2 h3 <;> simp <;> omega

theorem new_ok_elim {v : Nat} {prog : List Nat} {net : Network}
    {p : WitnessProgram} (h : WitnessProgram.new v prog net = .ok p) :
    p.validate = .ok () ∧ p.version = v ∧ p.program = prog ∧
      p.network = net ∧ encode (hrp net) (v :: to_base32 prog) = .ok p.bech32 := by
  unfold WitnessProgram.new at h
  cases hE : encode (hrp net) (v :: to_base32 prog) with
  | error e => rw [hE] at h; simp at h
  | ok bech =>
    rw [hE] at h
    simp only at h
    cases hV : WitnessProgram.validate ⟨v, prog, net, bech⟩ with
    | error e => rw [hV] at h; simp at h
    | ok u =>
      rw [hV] at h
      simp only [Except.ok.injEq] at h
      cases u
      subst h
      exact ⟨hV, rfl, rfl, rfl, rfl⟩

theorem from_str_ok_elim {s : List Nat} {p : WitnessProgram}
    (h : WitnessProgram.from_str s = .ok p) :
    p.validate = .ok () ∧ p.bech32 = s := by
  unfold WitnessProgram.from_str at h
  cases hD : decode s with
  | error e => rw [hD] at h; simp at h
  | ok pr =>
    obtain ⟨hh, data⟩ := pr
    rw [hD] at h
    simp only at h
    cases hC : classify hh with
    | none => rw [hC] at h; simp at h
    | some network =>
      rw [hC] at h
      simp only at h
      by_cases hLen : data.isEmpty = true ∨ 65 < data.length
      · rw [if_pos hLen] at h
        simp at h
      · rw [if_neg hLen] at h
        cases data with
        | nil => simp at h
        | cons v p5 =>
          simp only at h
          cases hB : from_base32 p5 with
          | error e => rw [hB] at h; simp at h
          | ok program =>
            rw [hB] at h
            simp only at h
            cases hV : WitnessProgram.validate ⟨v, program, network, s⟩ with
            | error e => rw [hV] at h; simp at h
            | ok u =>
              rw [hV] at h
              simp only [Except.ok.injEq] at h
              cases u
              subst h
              exact ⟨hV, rfl⟩

theorem from_scriptpubkey_ok_elim {pk : List Nat} {net : Network}
    {p : WitnessProgram}
    (h : WitnessProgram.from_scriptpubkey pk net = some (.ok p)) :
    p.validate = .ok () := by
  unfold WitnessProgram.from_scriptpubkey at h
  by_cases h4 : pk.length < 4
  · rw [if_pos h4] at h
    simp at h
  · rw [if_neg h4] at h
    simp only at h
    by_cases hL : pk.length ≠ 2 + pk.getD 1 0
    · rw [if_pos hL] at h
      simp at h
    · rw [if_neg hL] at h
      cases hT : try_from_u8 (if pk.getD 0 0 > 0x50
          then pk.getD 0 0 - 0x50 else pk.getD 0 0) with
      | none => rw [hT] at h; simp at h
      | some v =>
        rw [hT] at h
        simp only [Option.some.injEq] at h
        exact (new_ok_elim h).1

/-!
### Claim theorems
-/

/-- C1: every witness program returned by a successful `new`, `from_str`
(`from_address`) or `from_scriptpubkey` satisfies the three validity
invariants: version at most 16, program length within [2, 40], and for
version 0 a length of exactly 20 or 32 bytes. -/
theorem C1_constructors_validate
    (v : Nat) (prog : List Nat) (net : Network) (s pk : List Nat)
    (p : WitnessProgram)
    (h : WitnessProgram.new v prog net = .ok p
      ∨ WitnessProgram.from_str s = .ok p
      ∨ WitnessProgram.from_scriptpubkey pk net = some (.ok p)) :
    p.version ≤ 16 ∧ 2 ≤ p.program.length ∧ p.program.length ≤ 40 ∧
      (p.version = 0 → p.program.length = 20 ∨ p.program.length = 32) := by
  rcases h with h | h | h
  · exact (validate_ok_iff p).mp (new_ok_elim h).1
  · exact (validate_ok_iff p).mp (from_str_ok_elim h).1
  · exact (validate_ok_iff p).mp (from_scriptpubkey_ok_elim h)

/-- Witness for C1: a concrete successful decode of an address satisfying
the invariants. -/
theorem C1_constructors_validate_witness :
    WitnessProgram.from_str addrLow = .ok wpLow ∧
      (wpLow.version ≤ 16 ∧ 2 ≤ wpLow.program.length ∧
        wpLow.program.length ≤ 40 ∧
        (wpLow.version = 0 →
          wpLow.program.length = 20 ∨ wpLow.program.length = 32)) :=
  ⟨by decide,
    C1_constructors_validate 0 [] Network.bitcoin addrLow [] wpLow
      (Or.inr (Or.inl (by decide)))⟩

/-- C8: `validate` checks the invariants in a fixed order with
short-circuiting: version range first (its error wins even when the length
is also bad), then program length range, then the version-0 exact-length
rule, and returns `Ok` when all three hold. -/
theorem C8_validate_order (p : WitnessProgram) :
    (p.version > 16 → p.validate = .error .invalidScriptVersion) ∧
    (p.version ≤ 16 → (p.program.length < 2 ∨ p.program.length > 40) →
      p.validate = .error .invalidLength) ∧
    (p.version ≤ 16 → 2 ≤ p.program.length → p.program.length ≤ 40 →
      p.version = 0 → p.program.length ≠ 20 → p.program.length ≠ 32 →
      p.validate = .error .invalidVersionLength) ∧
    (p.version ≤ 16 → 2 ≤ p.program.length → p.program.length ≤ 40 →
      (p.version = 0 → p.program.length = 20 ∨ p.program.length = 32) →
      p.validate = .ok ()) := by
  refine ⟨?_, ?_, ?_, ?_⟩ <;>
    (intros
     unfold WitnessProgram.validate
     split_ifs <;> first | rfl | omega)

/-- Witness for C8: a candidate violating both the version and the length
invariant is reported as a version error. -/
theorem C8_validate_order_witness :
    (WitnessProgram.validate ⟨17, [], Network.bitcoin, []⟩
      = .error .invalidScriptVersion) :=
  (C8_validate_order ⟨17, [], Network.bitcoin, []⟩).1 (by decide)

/-- C5 evaluation: `from_scriptpubkey` hits the `.expect` panic (modelled
as `none`) on the script `[0x20, 0x02, 0x00, 0x00]`, instead of returning
an error value. -/
theorem C5_from_scriptpubkey_panics :
    WitnessProgram.from_scriptpubkey [32, 2, 0, 0] Network.bitcoin = none := by
  decide

/-- C6: a successfully decoded address is cached verbatim, so
`to_address` returns exactly the input string. -/
theorem C6_text_preserved (s : List Nat) (p : WitnessProgram)
    (h : WitnessProgram.from_str s = .ok p) :
    p.to_address = s :=
  (from_str_ok_elim h).2

/-- Witness for C6: decoding the uppercase test address and re-rendering
it returns the uppercase original. -/
theorem C6_text_preserved_witness :
    WitnessProgram.from_str addrUp = .ok wpUp ∧ wpUp.to_address = addrUp :=
  ⟨by decide, C6_text_preserved addrUp wpUp (by decide)⟩

/-- C4 counterexample: for the valid version-0 program `wpV0`,
`to_scriptpubkey` emits op byte 0, not the claimed `0 + 0x50`. -/
theorem C4_opbyte_counterexample :
    wpV0.validate = .ok () ∧
      wpV0.to_scriptpubkey
        ≠ c4ClaimOpByte wpV0.version :: wpV0.program.length :: wpV0.program := by
  decide

/-- C4 (amended): for every valid witness program the script pubkey is
`[op, len, ...program]` where `op` is the version itself when the version
is 0 and the version offset by 0x50 otherwise, and `len` is the program
length. -/
theorem C4_to_scriptpubkey_layout (p : WitnessProgram)
    (h : p.validate = .ok ()) :
    p.to_scriptpubkey
      = (if p.version = 0 then p.version else p.version + 0x50)
        :: p.program.length :: p.program := by
  have hv := (validate_ok_iff p).mp h
  unfold WitnessProgram.to_scriptpubkey
  rw [Nat.mod_eq_of_lt (by omega)]
  by_cases h0 : p.version = 0
  · rw [if_pos h0, if_neg (by omega)]
  · rw [if_neg h0, if_pos (by omega)]

/-- Witness for the amended C4 at a concrete valid program. -/
theorem C4_to_scriptpubkey_layout_witness :
    wpV0.validate = .ok () ∧
      wpV0.to_scriptpubkey
        = (if wpV0.version = 0 then wpV0.version else wpV0.version + 0x50)
          :: wpV0.program.length :: wpV0.program :=
  ⟨by decide, C4_to_scriptpubkey_layout wpV0 (by decide)⟩

/-- C2: for every valid triple of version, program and network, `new`
succeeds and decoding the produced address returns the constructed
witness program (here even with exact equality, which implies equality up
to input casing). -/
theorem C2_address_round_trip (version : Nat) (program : List Nat)
    (network : Network) (hv : version ≤ 16) (hb : ∀ b ∈ program, b < 256)
    (hlo : 2 ≤ program.length) (hhi : program.length ≤ 40)
    (h0 : version = 0 → program.length = 20 ∨ program.length = 32) :
    ∃ p, WitnessProgram.new version program network = .ok p ∧
      WitnessProgram.from_str p.to_address = .ok p := by
  have hd32 : ∀ x ∈ version :: to_base32 program, x < 32 := by
    intro x hx
    rcases List.mem_cons.mp hx with rfl | hx
    · omega
    · exact toGroups5_lt _ x hx
  have hdlen : (version :: to_base32 program).length ≤ 65 := by
    simp only [List.length_cons, to_base32, toGroups5_length,
      flatten_map8_length]
    omega
  have hval : WitnessProgram.validate
      ⟨version, program, network,
        hrp network ++ 49 :: ((version :: to_base32 program)
          ++ createChecksum (hrp network) (version :: to_base32 program)).map
            charsetChar⟩ = .ok () :=
    (validate_ok_iff _).mpr ⟨hv, hlo, hhi, h0⟩
  refine ⟨⟨version, program, network,
    hrp network ++ 49 :: ((version :: to_base32 program)
      ++ createChecksum (hrp network) (version :: to_base32 program)).map
        charsetChar⟩, ?_, ?_⟩
  · unfold WitnessProgram.new
    rw [encode_hrp_ok network (version :: to_base32 program)]
    simp only [hval]
  · show WitnessProgram.from_str
      (hrp network ++ 49 :: ((version :: to_base32 program)
        ++ createChecksum (hrp network) (version :: to_base32 program)).map
          charsetChar) = _
    unfold WitnessProgram.from_str
    rw [decode_encode_output network (version :: to_base32 program) hd32 hdlen]
    simp only [classify_hrp network]
    rw [if_neg (by
      simp only [List.isEmpty_cons, Bool.false_eq_true, false_or, not_lt]
      exact hdlen)]
    simp only [from_to_base32 program hb, hval]

theorem new_ok_build (version : Nat) (program : List Nat) (network : Network)
    (hval : version ≤ 16 ∧ 2 ≤ program.length ∧ program.length ≤ 40 ∧
      (version = 0 → program.length = 20 ∨ program.length = 32)) :
    WitnessProgram.new version program network
      = .ok ⟨version, program, network,
          hrp network ++ 49 :: ((version :: to_base32 program)
            ++ createChecksum (hrp network) (version :: to_base32 program)).map
              charsetChar⟩ := by
  have hok : WitnessProgram.validate
      ⟨version, program, network,
        hrp network ++ 49 :: ((version :: to_base32 program)
          ++ createChecksum (hrp network) (version :: to_base32 program)).map
            charsetChar⟩ = .ok () := (validate_ok_iff _).mpr hval
  unfold WitnessProgram.new
  rw [encode_hrp_ok network (version :: to_base32 program)]
  simp only [hok]

/-- C3 counterexample: the claim fails for a program decoded from an
uppercase address — the rebuilt program carries the lowercase canonical
text, so derived equality (which compares the cached text) rejects it. -/
theorem C3_round_trip_counterexample :
    WitnessProgram.from_str addrUp = .ok wpUp ∧
      WitnessProgram.from_scriptpubkey wpUp.to_scriptpubkey wpUp.network
        = some (.ok wpLow) ∧
      wpLow ≠ wpUp := by
  decide

/-- C3 (amended): for every valid witness program `p`,
`from_scriptpubkey(to_scriptpubkey(p), p.network)` succeeds and agrees
with `p` on version, program and network; the result equals `p` (by `==`)
exactly when `p`'s cached text coincides with the canonical re-encoding
(as it does for programs built by `new` or `from_scriptpubkey`). -/
theorem C3_scriptpubkey_round_trip (p : WitnessProgram)
    (h : p.validate = .ok ()) :
    ∃ q, WitnessProgram.from_scriptpubkey p.to_scriptpubkey p.network
        = some (.ok q) ∧
      q.version = p.version ∧ q.program = p.program ∧ q.network = p.network ∧
      (p.bech32 = q.bech32 → q = p) := by
  have hv := (validate_ok_iff p).mp h
  have hsp : p.to_scriptpubkey
      = (if p.version > 0 then p.version + 0x50 else p.version)
        :: p.program.length :: p.program := by
    unfold WitnessProgram.to_scriptpubkey
    rw [Nat.mod_eq_of_lt (by omega)]
  have hv1 : (if (if p.version > 0 then p.version + 0x50 else p.version) > 0x50
      then (if p.version > 0 then p.version + 0x50 else p.version) - 0x50
      else (if p.version > 0 then p.version + 0x50 else p.version))
      = p.version := by
    by_cases h0 : p.version > 0
    · rw [if_pos h0, if_pos (by omega)]
      omega
    · rw [if_neg h0, if_neg (by omega)]
  have htf : try_from_u8 p.version = some p.version := by
    unfold try_from_u8
    rw [if_pos (by omega)]
  refine ⟨⟨p.version, p.program, p.network,
    hrp p.network ++ 49 :: ((p.version :: to_base32 p.program)
      ++ createChecksum (hrp p.network) (p.version :: to_base32 p.program)).map
        charsetChar⟩, ?_, rfl, rfl, rfl, ?_⟩
  · unfold WitnessProgram.from_scriptpubkey
    rw [hsp]
    rw [if_neg (by simp only [List.length_cons]; omega)]
    simp only [List.getD_cons_succ, List.getD_cons_zero]
    rw [if_neg (by simp only [List.length_cons]; omega)]
    rw [hv1, htf]
    simp only [List.drop_succ_cons, List.drop_zero]
    rw [new_ok_build p.version p.program p.network ⟨hv.1, hv.2.1, hv.2.2.1, hv.2.2.2⟩]
  · intro heq
    obtain ⟨pv, pp, pn, pb⟩ := p
    simp only at heq
    simp [heq]

/-- Witness for the amended C3 at a concrete valid program. -/
theorem C3_scriptpubkey_round_trip_witness :
    wpV0.validate = .ok () ∧
      (∃ q, WitnessProgram.from_scriptpubkey wpV0.to_scriptpubkey wpV0.network
          = some (.ok q) ∧
        q.version = wpV0.version ∧ q.program = wpV0.program ∧
        q.network = wpV0.network ∧ (wpV0.bech32 = q.bech32 → q = wpV0)) :=
  ⟨by decide, C3_scriptpubkey_round_trip wpV0 (by decide)⟩

theorem classify_some_eq {s : List Nat} {n : Network} (h : classify s = some n) :
    s = hrp n := by
  unfold classify at h
  by_cases hc0 : s = [98, 99]
  · rw [if_pos hc0] at h
    injection h with h2
    subst h2
    exact hc0
  rw [if_neg hc0] at h
  by_cases hc1 : s = [116, 98]
  · rw [if_pos hc1] at h
    injection h with h2
    subst h2
    exact hc1
  rw [if_neg hc1] at h
  by_cases hc2 : s = [115, 98]
  · rw [if_pos hc2] at h
    injection h with h2
    subst h2
    exact hc2
  rw [if_neg hc2] at h
  by_cases hc3 : s = [98, 109]
  · rw [if_pos hc3] at h
    injection h with h2
    subst h2
    exact hc3
  rw [if_neg hc3] at h
  by_cases hc4 : s = [98, 116]
  · rw [if_pos hc4] at h
    injection h with h2
    subst h2
    exact hc4
  rw [if_neg hc4] at h
  by_cases hc5 : s = [98, 122]
  · rw [if_pos hc5] at h
    injection h with h2
    subst h2
    exact hc5
  rw [if_neg hc5] at h
  by_cases hc6 : s = [116, 122]
  · rw [if_pos hc6] at h
    injection h with h2
    subst h2
    exact hc6
  rw [if_neg hc6] at h
  by_cases hc7 : s = [99, 112]
  · rw [if_pos hc7] at h
    injection h with h2
    subst h2
    exact hc7
  rw [if_neg hc7] at h
  by_cases hc8 : s = [99, 112, 116]
  · rw [if_pos hc8] at h
    injection h with h2
    subst h2
    exact hc8
  rw [if_neg hc8] at h
  by_cases hc9 : s = [99, 114, 111]
  · rw [if_pos hc9] at h
    injection h with h2
    subst h2
    exact hc9
  rw [if_neg hc9] at h
  by_cases hc10 : s = [116, 99, 114, 111]
  · rw [if_pos hc10] at h
    injection h with h2
    subst h2
    exact hc10
  rw [if_neg hc10] at h
  by_cases hc11 : s = [100, 103, 98]
  · rw [if_pos hc11] at h
    injection h with h2
    subst h2
    exact hc11
  rw [if_neg hc11] at h
  by_cases hc12 : s = [100, 103, 98, 116]
  · rw [if_pos hc12] at h
    injection h with h2
    subst h2
    exact hc12
  rw [if_neg hc12] at h
  by_cases hc13 : s = [102, 99]
  · rw [if_pos hc13] at h
    injection h with h2
    subst h2
    exact hc13
  rw [if_neg hc13] at h
  by_cases hc14 : s = [116, 102]
  · rw [if_pos hc14] at h
    injection h with h2
    subst h2
    exact hc14
  rw [if_neg hc14] at h
  by_cases hc15 : s = [103, 114, 115]
  · rw [if_pos hc15] at h
    injection h with h2
    subst h2
    exact hc15
  rw [if_neg hc15] at h
  by_cases hc16 : s = [116, 103, 114, 115]
  · rw [if_pos hc16] at h
    injection h with h2
    subst h2
    exact hc16
  rw [if_neg hc16] at h
  by_cases hc17 : s = [104, 115]
  · rw [if_pos hc17] at h
    injection h with h2
    subst h2
    exact hc17
  rw [if_neg hc17] at h
  by_cases hc18 : s = [116, 115]
  · rw [if_pos hc18] at h
    injection h with h2
    subst h2
    exact hc18
  rw [if_neg hc18] at h
  by_cases hc19 : s = [108, 116, 99]
  · rw [if_pos hc19] at h
    injection h with h2
    subst h2
    exact hc19
  rw [if_neg hc19] at h
  by_cases hc20 : s = [116, 108, 116, 99]
  · rw [if_pos hc20] at h
    injection h with h2
    subst h2
    exact hc20
  rw [if_neg hc20] at h
  by_cases hc21 : s = [109, 111, 110, 97]
  · rw [if_pos hc21] at h
    injection h with h2
    subst h2
    exact hc21
  rw [if_neg hc21] at h
  by_cases hc22 : s = [116, 109, 111, 110, 97]
  · rw [if_pos hc22] at h
    injection h with h2
    subst h2
    exact hc22
  rw [if_neg hc22] at h
  by_cases hc23 : s = [114, 109, 111, 110, 97]
  · rw [if_pos hc23] at h
    injection h with h2
    subst h2
    exact hc23
  rw [if_neg hc23] at h
  by_cases hc24 : s = [109, 121]
  · rw [if_pos hc24] at h
    injection h with h2
    subst h2
    exact hc24
  rw [if_neg hc24] at h
  by_cases hc25 : s = [116, 109]
  · rw [if_pos hc25] at h
    injection h with h2
    subst h2
    exact hc25
  rw [if_neg hc25] at h
  by_cases hc26 : s = [110, 99]
  · rw [if_pos hc26] at h
    injection h with h2
    subst h2
    exact hc26
  rw [if_neg hc26] at h
  by_cases hc27 : s = [116, 110]
  · rw [if_pos hc27] at h
    injection h with h2
    subst h2
    exact hc27
  rw [if_neg hc27] at h
  by_cases hc28 : s = [120, 112, 99]
  · rw [if_pos hc28] at h
    injection h with h2
    subst h2
    exact hc28
  rw [if_neg hc28] at h
  by_cases hc29 : s = [116, 112, 99]
  · rw [if_pos hc29] at h
    injection h with h2
    subst h2
    exact hc29
  rw [if_neg hc29] at h
  by_cases hc30 : s = [112, 107, 116]
  · rw [if_pos hc30] at h
    injection h with h2
    subst h2
    exact hc30
  rw [if_neg hc30] at h
  by_cases hc31 : s = [116, 112, 107]
  · rw [if_pos hc31] at h
    injection h with h2
    subst h2
    exact hc31
  rw [if_neg hc31] at h
  by_cases hc32 : s = [113, 114, 108]
  · rw [if_pos hc32] at h
    injection h with h2
    subst h2
    exact hc32
  rw [if_neg hc32] at h
  by_cases hc33 : s = [116, 113, 114, 108]
  · rw [if_pos hc33] at h
    injection h with h2
    subst h2
    exact hc33
  rw [if_neg hc33] at h
  by_cases hc34 : s = [114, 99]
  · rw [if_pos hc34] at h
    injection h with h2
    subst h2
    exact hc34
  rw [if_neg hc34] at h
  by_cases hc35 : s = [116, 114]
  · rw [if_pos hc35] at h
    injection h with h2
    subst h2
    exact hc35
  rw [if_neg hc35] at h
  by_cases hc36 : s = [115, 117, 115, 117]
  · rw [if_pos hc36] at h
    injection h with h2
    subst h2
    exact hc36
  rw [if_neg hc36] at h
  by_cases hc37 : s = [116, 117, 116, 117]
  · rw [if_pos hc37] at h
    injection h with h2
    subst h2
    exact hc37
  rw [if_neg hc37] at h
  by_cases hc38 : s = [117, 101]
  · rw [if_pos hc38] at h
    injection h with h2
    subst h2
    exact hc38
  rw [if_neg hc38] at h
  by_cases hc39 : s = [116, 117, 101]
  · rw [if_pos hc39] at h
    injection h with h2
    subst h2
    exact hc39
  rw [if_neg hc39] at h
  by_cases hc40 : s = [118, 116, 99]
  · rw [if_pos hc40] at h
    injection h with h2
    subst h2
    exact hc40
  rw [if_neg hc40] at h
  by_cases hc41 : s = [116, 118, 116, 99]
  · rw [if_pos hc41] at h
    injection h with h2
    subst h2
    exact hc41
  rw [if_neg hc41] at h
  by_cases hc42 : s = [118, 105, 97]
  · rw [if_pos hc42] at h
    injection h with h2
    subst h2
    exact hc42
  rw [if_neg hc42] at h
  by_cases hc43 : s = [116, 118, 105, 97]
  · rw [if_pos hc43] at h
    injection h with h2
    subst h2
    exact hc43
  rw [if_neg hc43] at h
  by_cases hc44 : s = [118, 105, 112, 115]
  · rw [if_pos hc44] at h
    injection h with h2
    subst h2
    exact hc44
  rw [if_neg hc44] at h
  by_cases hc45 : s = [116, 118, 105, 112, 115]
  · rw [if_pos hc45] at h
    injection h with h2
    subst h2
    exact hc45
  rw [if_neg hc45] at h
  by_cases hc46 : s = [122, 101, 110]
  · rw [if_pos hc46] at h
    injection h with h2
    subst h2
    exact hc46
  rw [if_neg hc46] at h
  by_cases hc47 : s = [116, 122, 110]
  · rw [if_pos hc47] at h
    injection h with h2
    subst h2
    exact hc47
  rw [if_neg hc47] at h
  by_cases hc48 : s = [122, 105, 108]
  · rw [if_pos hc48] at h
    injection h with h2
    subst h2
    exact hc48
  rw [if_neg hc48] at h
  by_cases hc49 : s = [116, 122, 105, 108]
  · rw [if_pos hc49] at h
    injection h with h2
    subst h2
    exact hc49
  rw [if_neg hc49] at h
  by_cases hc50 : s = [98, 99, 114, 116]
  · rw [if_pos hc50] at h
    injection h with h2
    subst h2
    exact hc50
  rw [if_neg hc50] at h
  exact absurd h (by simp)

/-- C9: `classify` is a left inverse of `hrp` on every network value, and
returns `none` on every string that is no network's human-readable part. -/
theorem C9_hrp_classify_correspondence :
    (∀ n : Network, classify (hrp n) = some n) ∧
    (∀ s : List Nat, (∀ n : Network, s ≠ hrp n) → classify s = none) := by
  refine ⟨classify_hrp, ?_⟩
  intro s hs
  cases hC : classify s with
  | none => rfl
  | some n => exact absurd (classify_some_eq hC) (hs n)

/-- Witness for C9: the unknown prefix "xx" classifies to `none`. -/
theorem C9_hrp_classify_correspondence_witness :
    (∀ n : Network, ([120, 120] : List Nat) ≠ hrp n) ∧
      classify [120, 120] = none :=
  ⟨by decide, C9_hrp_classify_correspondence.2 [120, 120] (by decide)⟩

/-- C10: derived equality on `WitnessProgram` also compares the cached
text: the uppercase and lowercase decodings of the same address agree on
version, program and network yet compare unequal. -/
theorem C10_eq_compares_text :
    ∃ p q : WitnessProgram,
      WitnessProgram.from_str addrUp = .ok p ∧
      WitnessProgram.from_str addrLow = .ok q ∧
      p.version = q.version ∧ p.program = q.program ∧
      p.network = q.network ∧ p ≠ q :=
  ⟨wpUp, wpLow, by decide, by decide, rfl, rfl, rfl, by decide⟩

/-!
### Decoder canonicalization machinery (for C7)
-/

theorem charRevAux_some {l : List Nat} {c i v : Nat}
    (h : charRevAux l c i = some v) :
    ∃ j, j < l.length ∧ v = i + j ∧ l.getD j 0 = c := by
  induction l generalizing i with
  | nil => simp [charRevAux] at h
  | cons x rest ih =>
    unfold charRevAux at h
    by_cases hx : x = c
    · rw [if_pos hx] at h
      injection h with h2
      exact ⟨0, by simp, by omega, by simpa using hx⟩
    · rw [if_neg hx] at h
      obtain ⟨j, hj, hv, hg⟩ := ih h
      refine ⟨j + 1, by simpa using hj, by omega, by simpa using hg⟩

theorem charRev_some {c v : Nat} (h : charRev c = some v) :
    v < 32 ∧ charsetChar v = c := by
  obtain ⟨j, hj, hv, hg⟩ := charRevAux_some h
  have hlen : CHARSET.length = 32 := by rfl
  rw [hlen] at hj
  constructor
  · omega
  · unfold charsetChar
    have : v = j := by omega
    rw [this]
    exact hg

theorem mapCharRev_some {l vs : List Nat} (h : mapCharRev l = some vs) :
    l = vs.map charsetChar ∧ ∀ v ∈ vs, v < 32 := by
  induction l generalizing vs with
  | nil =>
    unfold mapCharRev at h
    injection h with h2
    subst h2
    simp
  | cons c rest ih =>
    unfold mapCharRev at h
    cases hR : charRev c with
    | none => rw [hR] at h; simp at h
    | some v =>
      cases hM : mapCharRev rest with
      | none => rw [hR, hM] at h; simp at h
      | some vs' =>
        rw [hR, hM] at h
        simp only at h
        injection h with h2
        subst h2
        obtain ⟨hrc, hcc⟩ := charRev_some hR
        obtain ⟨hre, hvs⟩ := ih hM
        refine ⟨by simp [hcc, hre], ?_⟩
        intro x hx
        rcases List.mem_cons.mp hx with rfl | hx
        · exact hrc
        · exact hvs x hx

theorem rfind1_decomp {l : List Nat} {j : Nat} (h : rfind1 l = some j) :
    ∃ l1 l2, l = l1 ++ 49 :: l2 ∧ l1.length = j := by
  induction l generalizing j with
  | nil => simp [rfind1] at h
  | cons c rest ih =>
    unfold rfind1 at h
    cases hR : rfind1 rest with
    | some j' =>
      rw [hR] at h
      injection h with h2
      obtain ⟨l1, l2, hdec, hlen⟩ := ih hR
      refine ⟨c :: l1, l2, by rw [hdec]; rfl, ?_⟩
      simp only [List.length_cons, hlen]
      omega
    | none =>
      rw [hR] at h
      by_cases hc : c = 49
      · rw [if_pos hc] at h
        injection h with h2
        subst hc
        exact ⟨[], rest, rfl, by simpa using h2⟩
      · rw [if_neg hc] at h
        simp at h

theorem flat5_length (l : List Nat) :
    ((l.map (natToBits 5)).flatten).length = 5 * l.length := by
  induction l with
  | nil => simp
  | cons v rest ih =>
    simp [natToBits_length, ih]
    omega

theorem flat8_toBytes8 (l : List Bool) (h : l.length % 8 = 0) :
    ((toBytes8 l).map (natToBits 8)).flatten = l := by
  induction l using toBytes8.induct with
  | case1 b0 b1 b2 b3 b4 b5 b6 b7 rest ih =>
    simp only [toBytes8, List.map_cons, List.flatten_cons]
    rw [ih (by simp only [List.length_cons] at h; omega)]
    have h8 : natToBits 8 (bitsToNat [b0, b1, b2, b3, b4, b5, b6, b7])
        = [b0, b1, b2, b3, b4, b5, b6, b7] :=
      natToBits_bitsToNat [b0, b1, b2, b3, b4, b5, b6, b7]
    rw [h8]
    rfl
  | case2 t h8 =>
    rcases t with _ | ⟨a, _ | ⟨b, _ | ⟨c, _ | ⟨d, _ | ⟨e, _ | ⟨f, _ | ⟨g, _ | ⟨x, r⟩⟩⟩⟩⟩⟩⟩⟩
    · rfl
    all_goals first
    | (exact absurd rfl (h8 _ _ _ _ _ _ _ _ _))
    | (exfalso; simp only [List.length_cons, List.length_nil] at h; omega)

theorem any_false_replicate {l : List Bool} (h : l.any (fun b => b) = false) :
    l = List.replicate l.length false := by
  induction l with
  | nil => rfl
  | cons b rest ih =>
    simp only [List.any_cons, Bool.or_eq_false_iff] at h
    obtain ⟨rfl, h2⟩ := h
    rw [List.length_cons, List.replicate_succ, ← ih h2]

theorem flat5_inj {xs ys : List Nat} (hx : ∀ v ∈ xs, v < 32)
    (hy : ∀ v ∈ ys, v < 32)
    (h : (xs.map (natToBits 5)).flatten = (ys.map (natToBits 5)).flatten) :
    xs = ys := by
  induction xs generalizing ys with
  | nil =>
    cases ys with
    | nil => rfl
    | cons y t =>
      have := congrArg List.length h
      simp [natToBits_length] at this
      omega
  | cons x xt ih =>
    cases ys with
    | nil =>
      have := congrArg List.length h
      simp [natToBits_length] at this
    | cons y yt =>
      simp only [List.map_cons, List.flatten_cons] at h
      obtain ⟨h1, h2⟩ := List.append_inj h
        (by rw [natToBits_length, natToBits_length])
      have hxy : x = y := by
        have hc := congrArg bitsToNat h1
        rwa [bitsToNat_natToBits_of_lt (hx x (List.mem_cons_self x xt)),
          bitsToNat_natToBits_of_lt (hy y (List.mem_cons_self y yt))] at hc
      rw [hxy, ih (fun v hv => hx v (List.mem_cons_of_mem x hv))
        (fun v hv => hy v (List.mem_cons_of_mem y hv)) h2]

/-- Lemma: `ToBase32` undoes a successful `FromBase32`: the other direction of
the regrouping round trip. -/
theorem to_base32_from_base32 {p5 prog : List Nat}
    (hp : ∀ v ∈ p5, v < 32) (h : from_base32 p5 = .ok prog) :
    to_base32 prog = p5 := by
  unfold from_base32 at h
  by_cases h5 : 5 ≤ ((p5.map (natToBits 5)).flatten).length % 8
  · rw [if_pos h5] at h
    simp at h
  · rw [if_neg h5] at h
    by_cases hpad : (((p5.map (natToBits 5)).flatten).drop
        (((p5.map (natToBits 5)).flatten).length
          - ((p5.map (natToBits 5)).flatten).length % 8)).any (fun b => b) = true
    · rw [if_pos hpad] at h
      simp at h
    · rw [if_neg hpad] at h
      injection h with h2
      subst h2
      have hlen5 : ((p5.map (natToBits 5)).flatten).length = 5 * p5.length :=
        flat5_length p5
      have hbl : (((p5.map (natToBits 5)).flatten).take
          (((p5.map (natToBits 5)).flatten).length
            - ((p5.map (natToBits 5)).flatten).length % 8)).length
          = ((p5.map (natToBits 5)).flatten).length
            - ((p5.map (natToBits 5)).flatten).length % 8 := by
        rw [List.length_take]
        omega
      unfold to_base32
      rw [flat8_toBytes8 _ (by rw [hbl]; omega)]
      apply flat5_inj (toGroups5_lt _) hp
      rw [flat5_toGroups5, hbl]
      have hdroplen : (((p5.map (natToBits 5)).flatten).drop
          (((p5.map (natToBits 5)).flatten).length
            - ((p5.map (natToBits 5)).flatten).length % 8)).length
          = ((p5.map (natToBits 5)).flatten).length % 8 := by
        rw [List.length_drop]
        omega
      have hdrop0 : ((p5.map (natToBits 5)).flatten).drop
          (((p5.map (natToBits 5)).flatten).length
            - ((p5.map (natToBits 5)).flatten).length % 8)
          = List.replicate (((p5.map (natToBits 5)).flatten).length % 8)
              false := by
        have hrep := any_false_replicate (Bool.of_not_eq_true hpad)
        rwa [hdroplen] at hrep
      have hpadr : (5 - (((p5.map (natToBits 5)).flatten).length
            - ((p5.map (natToBits 5)).flatten).length % 8) % 5) % 5
          = ((p5.map (natToBits 5)).flatten).length % 8 := by
        omega
      rw [hpadr, ← hdrop0, List.take_append_drop]

theorem shiftLeft_xor_eq_add (a b k : Nat) (hb : b < 2 ^ k) :
    (a <<< k) ^^^ b = 2 ^ k * a + b := by
  apply Nat.eq_of_testBit_eq
  intro i
  rw [Nat.testBit_xor, Nat.testBit_shiftLeft, Nat.testBit_mul_pow_two_add a hb i]
  by_cases hik : i < k
  · rw [if_pos hik]
    have : ¬ (i ≥ k) := by omega
    simp [this]
  · rw [if_neg hik]
    have h1 : i ≥ k := by omega
    have h2 : b.testBit i = false :=
      Nat.testBit_lt_two_pow
        (lt_of_lt_of_le hb (Nat.pow_le_pow_right (by norm_num) (by omega)))
    simp [h1, h2]

theorem packSyms_six (v0 v1 v2 v3 v4 v5 : Nat) (h1 : v1 < 32)
    (h2 : v2 < 32) (h3 : v3 < 32) (h4 : v4 < 32) (h5 : v5 < 32) :
    packSyms [v0, v1, v2, v3, v4, v5]
      = 2 ^ 25 * v0 + (2 ^ 20 * v1 + (2 ^ 15 * v2
          + (2 ^ 10 * v3 + (2 ^ 5 * v4 + v5)))) := by
  have e5 : packSyms [v5] = v5 := by
    simp [packSyms]
  have e4 : packSyms [v4, v5] = 2 ^ 5 * v4 + v5 := by
    rw [show packSyms [v4, v5] = (v4 <<< 5) ^^^ packSyms [v5] from rfl, e5,
      shiftLeft_xor_eq_add _ _ _ (by omega)]
  have e3 : packSyms [v3, v4, v5] = 2 ^ 10 * v3 + (2 ^ 5 * v4 + v5) := by
    rw [show packSyms [v3, v4, v5] = (v3 <<< 10) ^^^ packSyms [v4, v5] from rfl,
      e4, shiftLeft_xor_eq_add _ _ _ (by omega)]
  have e2 : packSyms [v2, v3, v4, v5]
      = 2 ^ 15 * v2 + (2 ^ 10 * v3 + (2 ^ 5 * v4 + v5)) := by
    rw [show packSyms [v2, v3, v4, v5]
        = (v2 <<< 15) ^^^ packSyms [v3, v4, v5] from rfl,
      e3, shiftLeft_xor_eq_add _ _ _ (by omega)]
  have e1 : packSyms [v1, v2, v3, v4, v5]
      = 2 ^ 20 * v1 + (2 ^ 15 * v2 + (2 ^ 10 * v3 + (2 ^ 5 * v4 + v5))) := by
    rw [show packSyms [v1, v2, v3, v4, v5]
        = (v1 <<< 20) ^^^ packSyms [v2, v3, v4, v5] from rfl,
      e2, shiftLeft_xor_eq_add _ _ _ (by omega)]
  rw [show packSyms [v0, v1, v2, v3, v4, v5]
      = (v0 <<< 25) ^^^ packSyms [v1, v2, v3, v4, v5] from rfl,
    e1, shiftLeft_xor_eq_add _ _ _ (by omega)]

/-- A six-symbol suffix that makes the checksum verify is necessarily the
checksum the encoder would have appended: checksum uniqueness. -/
theorem checksum_unique {hh data' : List Nat} (cs' : List Nat)
    (hhb : ∀ c ∈ hh, c < 1024) (hd : ∀ v ∈ data', v < 32)
    (hcs : ∀ v ∈ cs', v < 32) (hlen : cs'.length = 6)
    (hver : polymod (hrpExpand hh ++ (data' ++ cs')) = 1) :
    cs' = createChecksum hh data' := by
  rcases cs' with _ | ⟨v0, _ | ⟨v1, _ | ⟨v2, _ | ⟨v3, _ | ⟨v4, _ | ⟨v5, tail⟩⟩⟩⟩⟩⟩ <;>
    simp only [List.length_cons, List.length_nil] at hlen
  pick_goal 7
  swap
  all_goals try omega
  have htail : tail = [] := by
    rw [← List.length_eq_zero]
    omega
  subst htail
  have hv0 : v0 < 32 := hcs v0 (by simp)
  have hv1 : v1 < 32 := hcs v1 (by simp)
  have hv2 : v2 < 32 := hcs v2 (by simp)
  have hv3 : v3 < 32 := hcs v3 (by simp)
  have hv4 : v4 < 32 := hcs v4 (by simp)
  have hv5 : v5 < 32 := hcs v5 (by simp)
  have hfold : polymod (hrpExpand hh ++ (data' ++ [v0, v1, v2, v3, v4, v5]))
      = polymod (hrpExpand hh ++ data' ++ [0, 0, 0, 0, 0, 0])
        ^^^ packSyms [v0, v1, v2, v3, v4, v5] := by
    rw [polymod, ← List.append_assoc, List.foldl_append,
      foldl_polymodStep_pack _ _ (by simp) hcs]
    congr 1
    simp [polymod, List.foldl_append, List.replicate]
  rw [hfold] at hver
  have hpack : packSyms [v0, v1, v2, v3, v4, v5]
      = polymod (hrpExpand hh ++ data' ++ [0, 0, 0, 0, 0, 0]) ^^^ 1 := by
    rw [← hver, ← Nat.xor_assoc, Nat.xor_self, Nat.zero_xor]
  have hpre : ∀ v ∈ hrpExpand hh ++ data' ++ [0, 0, 0, 0, 0, 0], v < 32 := by
    intro v hv
    simp only [List.mem_append, List.mem_cons, List.not_mem_nil,
      or_false] at hv
    rcases hv with (hv | hv) | hv
    · exact hrpExpand_lt hh hhb v hv
    · exact hd v hv
    · rcases hv with rfl | rfl | rfl | rfl | rfl | rfl <;> norm_num
  have hplt : polymod (hrpExpand hh ++ data' ++ [0, 0, 0, 0, 0, 0]) < 2 ^ 30 :=
    foldl_polymodStep_lt _ 1 (by norm_num) hpre
  rw [packSyms_six v0 v1 v2 v3 v4 v5 hv1 hv2 hv3 hv4 hv5] at hpack
  set t := polymod (hrpExpand hh ++ data' ++ [0, 0, 0, 0, 0, 0]) ^^^ 1 with hts
  have ht30 : t < 2 ^ 30 := Nat.xor_lt_two_pow hplt (by norm_num)
  have hcc : createChecksum hh data'
      = [(t >>> 25) &&& 31, (t >>> 20) &&& 31, (t >>> 15) &&& 31,
         (t >>> 10) &&& 31, (t >>> 5) &&& 31, t &&& 31] := rfl
  rw [hcc]
  have h31 : (31 : Nat) = 2 ^ 5 - 1 := by norm_num
  have hc0 : (t >>> 25) &&& 31 = t / 2 ^ 25 % 2 ^ 5 := by
    rw [Nat.shiftRight_eq_div_pow, h31, Nat.and_pow_two_sub_one_eq_mod]
  have hc1 : (t >>> 20) &&& 31 = t / 2 ^ 20 % 2 ^ 5 := by
    rw [Nat.shiftRight_eq_div_pow, h31, Nat.and_pow_two_sub_one_eq_mod]
  have hc2 : (t >>> 15) &&& 31 = t / 2 ^ 15 % 2 ^ 5 := by
    rw [Nat.shiftRight_eq_div_pow, h31, Nat.and_pow_two_sub_one_eq_mod]
  have hc3 : (t >>> 10) &&& 31 = t / 2 ^ 10 % 2 ^ 5 := by
    rw [Nat.shiftRight_eq_div_pow, h31, Nat.and_pow_two_sub_one_eq_mod]
  have hc4 : (t >>> 5) &&& 31 = t / 2 ^ 5 % 2 ^ 5 := by
    rw [Nat.shiftRight_eq_div_pow, h31, Nat.and_pow_two_sub_one_eq_mod]
  have hc5 : t &&& 31 = t % 2 ^ 5 := by
    rw [h31, Nat.and_pow_two_sub_one_eq_mod]
  rw [hc0, hc1, hc2, hc3, hc4, hc5]
  have hb0 : v0 = t / 2 ^ 25 % 2 ^ 5 := by omega
  have hb1 : v1 = t / 2 ^ 20 % 2 ^ 5 := by omega
  have hb2 : v2 = t / 2 ^ 15 % 2 ^ 5 := by omega
  have hb3 : v3 = t / 2 ^ 10 % 2 ^ 5 := by omega
  have hb4 : v4 = t / 2 ^ 5 % 2 ^ 5 := by omega
  have hb5 : v5 = t % 2 ^ 5 := by omega
  rw [← hb0, ← hb1, ← hb2, ← hb3, ← hb4, ← hb5]

/-- Every successful decode is the decode of a canonical encoder output:
re-encoding the returned pair reproduces the lowercased input. -/
theorem decode_ok_elim {s hh data' : List Nat}
    (h : decode s = .ok (hh, data')) :
    (∀ v ∈ data', v < 32) ∧ encode hh data' = .ok (s.map toLowerB) := by
  unfold decode at h
  by_cases hmix : (s.any isUpperB = true ∧ s.any isLowerB = true)
  · rw [if_pos hmix] at h
    simp at h
  · rw [if_neg hmix] at h
    by_cases hwin : (s.length < 8 ∨ 90 < s.length)
    · rw [if_pos hwin] at h
      simp at h
    · rw [if_neg hwin] at h
      simp only at h
      cases hf : rfind1 (s.map toLowerB) with
      | none => rw [hf] at h; simp at h
      | some pos =>
        rw [hf] at h
        simp only at h
        obtain ⟨l1, l2, hsl, hl1len⟩ := rfind1_decomp hf
        have htake : (s.map toLowerB).take pos = l1 := by
          rw [hsl, ← hl1len]
          exact List.take_left _ _
        have hdrop : (s.map toLowerB).drop (pos + 1) = l2 := by
          rw [hsl, ← hl1len, List.append_cons]
          have he : l1.length + 1 = (l1 ++ [49]).length := by simp
          rw [he, List.drop_left]
        rw [htake, hdrop] at h
        by_cases hh1 : l1.length < 1
        · rw [if_pos hh1] at h
          simp at h
        · rw [if_neg hh1] at h
          by_cases hl26 : l2.length < 6
          · rw [if_pos hl26] at h
            simp at h
          · rw [if_neg hl26] at h
            by_cases hhv : ¬ l1.all hrpValidByte = true
            · rw [if_pos hhv] at h
              simp at h
            · rw [if_neg hhv] at h
              rw [not_not] at hhv
              cases hm : mapCharRev l2 with
              | none => rw [hm] at h; simp at h
              | some values =>
                rw [hm] at h
                simp only at h
                by_cases hver : verifyChecksum l1 values = true
                · rw [if_pos hver] at h
                  simp only [Except.ok.injEq, Prod.mk.injEq] at h
                  obtain ⟨rfl, rfl⟩ := h
                  obtain ⟨hl2eq, hvlt⟩ := mapCharRev_some hm
                  have hvallen : values.length = l2.length := by
                    rw [hl2eq, List.length_map]
                  have hsplitv := List.take_append_drop
                    (values.length - 6) values
                  have hcslen : (values.drop (values.length - 6)).length = 6 := by
                    rw [List.length_drop]
                    omega
                  have hslen : s.length = l1.length + 1 + l2.length := by
                    have := congrArg List.length hsl
                    simp at this
                    omega
                  have hl183 : ¬ (l1.length < 1 ∨ 83 < l1.length) := by
                    omega
                  have hhb : ∀ c ∈ l1, c < 1024 := by
                    intro c hc
                    have := List.all_eq_true.mp hhv c hc
                    unfold hrpValidByte at this
                    simp only [decide_eq_true_eq] at this
                    omega
                  have hcs : values.drop (values.length - 6)
                      = createChecksum l1 (values.take (values.length - 6)) := by
                    apply checksum_unique _ hhb
                      (fun v hv => hvlt v (List.mem_of_mem_take hv))
                      (fun v hv => hvlt v (List.mem_of_mem_drop hv))
                      hcslen
                    rw [hsplitv]
                    unfold verifyChecksum at hver
                    exact beq_iff_eq.mp hver
                  refine ⟨fun v hv => hvlt v (List.mem_of_mem_take hv), ?_⟩
                  unfold encode
                  rw [if_neg hl183, if_neg (by rw [not_not]; exact hhv)]
                  rw [← hcs, hsplitv, ← hl2eq, ← hsl]
                · rw [if_neg hver] at h
                  simp at h

theorem from_str_ok_decomp {s : List Nat} {p : WitnessProgram}
    (h : WitnessProgram.from_str s = .ok p) :
    ∃ hh p5, decode s = .ok (hh, p.version :: p5) ∧
      classify hh = some p.network ∧ from_base32 p5 = .ok p.program ∧
      p.bech32 = s := by
  unfold WitnessProgram.from_str at h
  cases hD : decode s with
  | error e => rw [hD] at h; simp at h
  | ok pr =>
    obtain ⟨hh, data⟩ := pr
    rw [hD] at h
    simp only at h
    cases hC : classify hh with
    | none => rw [hC] at h; simp at h
    | some network =>
      rw [hC] at h
      simp only at h
      by_cases hLen : data.isEmpty = true ∨ 65 < data.length
      · rw [if_pos hLen] at h
        simp at h
      · rw [if_neg hLen] at h
        cases data with
        | nil => simp at h
        | cons v p5 =>
          simp only at h
          cases hB : from_base32 p5 with
          | error e => rw [hB] at h; simp at h
          | ok program =>
            rw [hB] at h
            simp only at h
            cases hV : WitnessProgram.validate ⟨v, program, network, s⟩ with
            | error e => rw [hV] at h; simp at h
            | ok u =>
              rw [hV] at h
              simp only [Except.ok.injEq] at h
              cases u
              subst h
              exact ⟨hh, p5, rfl, hC, hB, rfl⟩

theorem new_ok_canonical {v : Nat} {prog : List Nat} {net : Network}
    {p : WitnessProgram} (h : WitnessProgram.new v prog net = .ok p) :
    encode (hrp p.network) (p.version :: to_base32 p.program)
      = .ok p.bech32 := by
  obtain ⟨_, h1, h2, h3, henc⟩ := new_ok_elim h
  rw [h1, h2, h3]
  exact henc

theorem from_scriptpubkey_ok_new {pk : List Nat} {net : Network}
    {p : WitnessProgram}
    (h : WitnessProgram.from_scriptpubkey pk net = some (.ok p)) :
    ∃ v, WitnessProgram.new v (pk.drop 2) net = .ok p := by
  unfold WitnessProgram.from_scriptpubkey at h
  by_cases h4 : pk.length < 4
  · rw [if_pos h4] at h
    simp at h
  · rw [if_neg h4] at h
    simp only at h
    by_cases hL : pk.length ≠ 2 + pk.getD 1 0
    · rw [if_pos hL] at h
      simp at h
    · rw [if_neg hL] at h
      cases hT : try_from_u8 (if pk.getD 0 0 > 0x50
          then pk.getD 0 0 - 0x50 else pk.getD 0 0) with
      | none => rw [hT] at h; simp at h
      | some v =>
        rw [hT] at h
        simp only [Option.some.injEq] at h
        exact ⟨v, h⟩

/-- C7 counterexample: the program decoded from the uppercase address
caches the uppercase text, which differs from the checksummed encoding of
its prefix and payload (the encoder emits lowercase). -/
theorem C7_text_form_counterexample :
    WitnessProgram.from_str addrUp = .ok wpUp ∧
      encode (hrp wpUp.network) (wpUp.version :: to_base32 wpUp.program)
        = .ok addrLow ∧
      wpUp.bech32 ≠ addrLow := by
  decide

/-- C7 (amended): for instances built by `new` or `from_scriptpubkey` the
cached text is exactly the checksummed encoding of
`(prefix(network), [version] ++ base32(program))`; for instances decoded
from an address this holds up to letter case — the lowercasing of the
cached text equals that encoding. -/
theorem C7_text_form_canonical :
    (∀ (v : Nat) (prog : List Nat) (net : Network) (p : WitnessProgram),
      WitnessProgram.new v prog net = .ok p →
        encode (hrp p.network) (p.version :: to_base32 p.program)
          = .ok p.bech32) ∧
    (∀ (pk : List Nat) (net : Network) (p : WitnessProgram),
      WitnessProgram.from_scriptpubkey pk net = some (.ok p) →
        encode (hrp p.network) (p.version :: to_base32 p.program)
          = .ok p.bech32) ∧
    (∀ (s : List Nat) (p : WitnessProgram),
      WitnessProgram.from_str s = .ok p →
        encode (hrp p.network) (p.version :: to_base32 p.program)
          = .ok (p.bech32.map toLowerB)) := by
  refine ⟨fun v prog net p h => new_ok_canonical h, ?_, ?_⟩
  · intro pk net p h
    obtain ⟨v, hnew⟩ := from_scriptpubkey_ok_new h
    exact new_ok_canonical hnew
  · intro s p h
    obtain ⟨hh, p5, hD, hC, hB, hbech⟩ := from_str_ok_decomp h
    obtain ⟨hlt, henc⟩ := decode_ok_elim hD
    have hhh : hh = hrp p.network := classify_some_eq hC
    have hp5 : to_base32 p.program = p5 :=
      to_base32_from_base32
        (fun x hx => hlt x (List.mem_cons_of_mem p.version hx)) hB
    rw [hbech, ← hhh, hp5]
    exact henc

/-- Witness for the amended C7: the uppercase decode's text lowercases to
the canonical encoding. -/
theorem C7_text_form_canonical_witness :
    WitnessProgram.from_str addrUp = .ok wpUp ∧
      encode (hrp wpUp.network) (wpUp.version :: to_base32 wpUp.program)
        = .ok (wpUp.bech32.map toLowerB) :=
  ⟨by decide, C7_text_form_canonical.2.2 addrUp wpUp (by decide)⟩

/-- Witness for C2 at a concrete valid input. -/
theorem C2_address_round_trip_witness :
    (0 : Nat) ≤ 16 ∧ (∀ b ∈ List.replicate 20 (0 : Nat), b < 256) ∧
      2 ≤ (List.replicate 20 (0 : Nat)).length ∧
      (List.replicate 20 (0 : Nat)).length ≤ 40 ∧
      ∃ p, WitnessProgram.new 0 (List.replicate 20 0) Network.bitcoin = .ok p ∧
        WitnessProgram.from_str p.to_address = .ok p :=
  ⟨by decide, by decide, by decide, by decide,
    C2_address_round_trip 0 (List.replicate 20 0) Network.bitcoin
      (by decide) (by decide) (by decide) (by decide) (by decide)⟩

end Altcoin
